import Mathlib

/-!
# MPTCP option printer (`print-mptcp.c`)

A shallow embedding of the MPTCP option decoder of tcpdump and the
properties of it that the specification states.

Conventions of the embedding:

* the option buffer is a list of octets (`List u_char`); the C pointer `opt`
  is the pair of that list and an offset;
* every memory read goes through `rd`, which returns the octet or stops the
  run with `Status.fault idx` when `idx` lies outside the buffer;
* `printf` appends to the text written so far; a run carries the text written
  and either the value returned or the fault;
* `u_int` values (`opt_len`) are natural numbers: the only arithmetic on them is
  `opt_len -= 3` after `opt_len >= 4` and sums bounded by 28, so no
  operation wraps.
-/

namespace Mptcp

/-- An octet (`u_char`, `u_int8_t`). -/
abbrev u_char := Fin 256

/-- How a run ends: the function returned `v`, or it read the octet at index
`idx`, which the buffer does not have. -/
inductive Status (α : Type) where
  | done (v : α)
  | fault (idx : Nat)
deriving DecidableEq

/-- A run: the text written to the output, and how the run ended. -/
structure Run (α : Type) where
  out : String
  res : Status α
deriving DecidableEq

/-- Sequencing: the text of the second part follows the text of the first;
a fault stops the run. -/
def Run.bind {α β : Type} (m : Run α) (f : α → Run β) : Run β :=
  match m.res with
  | .done v => ⟨m.out ++ (f v).out, (f v).res⟩
  | .fault i => ⟨m.out, .fault i⟩

instance : Monad Run where
  pure v := ⟨"", .done v⟩
  bind := Run.bind

/-- The run `r` with the text `s` written before it. -/
def Run.after {α : Type} (s : String) (r : Run α) : Run α := ⟨s ++ r.out, r.res⟩

/-- The call `printf(...)` once its arguments are formatted: writes `s`. -/
def printf (s : String) : Run Unit := ⟨s, .done ()⟩

/-- Read of the octet at index `i` of the buffer. -/
def rd (opt : List u_char) (i : Nat) : Run Nat :=
  match opt[i]? with
  | some b => ⟨"", .done b.val⟩
  | none => ⟨"", .fault i⟩

/-- Reads of `n` consecutive octets starting at index `off`, lowest first. -/
def rdN (opt : List u_char) (off : Nat) : Nat → Run (List Nat)
  | 0 => pure []
  | n + 1 => do
    let b ← rd opt off
    let bs ← rdN opt (off + 1) n
    pure (b :: bs)

/-- The unsigned integer a sequence of octets denotes in network byte order
(most significant octet first). -/
def be (bs : List Nat) : Nat := bs.foldl (fun acc b => acc * 256 + b) 0

/-- Modelled from the spec: `EXTRACT_16BITS` of `extract.h` (absent), the
big-endian integer extraction utility for 16-bit width. -/
def EXTRACT_16BITS (opt : List u_char) (off : Nat) : Run Nat := do
  let bs ← rdN opt off 2
  pure (be bs)

/-- Modelled from the spec: `EXTRACT_32BITS` of `extract.h` (absent), the
big-endian integer extraction utility for 32-bit width. -/
def EXTRACT_32BITS (opt : List u_char) (off : Nat) : Run Nat := do
  let bs ← rdN opt off 4
  pure (be bs)

/-- Modelled from the spec: `EXTRACT_64BITS` of `extract.h` (absent), the
big-endian integer extraction utility for 64-bit width. -/
def EXTRACT_64BITS (opt : List u_char) (off : Nat) : Run Nat := do
  let bs ← rdN opt off 8
  pure (be bs)

/-- The conversions `%u`, `%d` (of a non-negative value) and `PRIu64` of
`printf`: decimal, no padding. -/
def fmt_u (n : Nat) : String := String.mk (Nat.toDigits 10 n)

/-- The conversions `%x` and `PRIx64` of `printf`: lowercase hexadecimal, no
padding. -/
def fmt_x (n : Nat) : String := String.mk (Nat.toDigits 16 n)

/-- The conversion `%02x` of `printf`: lowercase hexadecimal, zero-padded to
two digits. -/
def fmt_02x (n : Nat) : String := if n < 16 then "0" ++ fmt_x n else fmt_x n

/-- Modelled from the spec: `TH_SYN` of `tcp.h` (absent), SYN at bit 1. -/
def TH_SYN : Nat := 0x02

/-- Modelled from the spec: `TH_ACK` of `tcp.h` (absent), ACK at bit 4. -/
def TH_ACK : Nat := 0x10

def MPTCP_SUB_CAPABLE : Nat := 0x0
def MPTCP_SUB_JOIN : Nat := 0x1
def MPTCP_SUB_DSS : Nat := 0x2
def MPTCP_SUB_ADD_ADDR : Nat := 0x3
def MPTCP_SUB_REMOVE_ADDR : Nat := 0x4
def MPTCP_SUB_PRIO : Nat := 0x5
def MPTCP_SUB_FAIL : Nat := 0x6
def MPTCP_SUB_FCLOSE : Nat := 0x7

def MPTCP_OPT_SUBTYPE (sub_etc : Nat) : Nat := (sub_etc >>> 4) &&& 0xF
def MP_CAPABLE_OPT_VERSION (sub_ver : Nat) : Nat := (sub_ver >>> 0) &&& 0xF
def MP_CAPABLE_C : Nat := 0x80
def MP_CAPABLE_S : Nat := 0x01
def MP_JOIN_B : Nat := 0x01
def MP_DSS_F : Nat := 0x10
def MP_DSS_m : Nat := 0x08
def MP_DSS_M : Nat := 0x04
def MP_DSS_a : Nat := 0x02
def MP_DSS_A : Nat := 0x01
def MP_ADD_ADDR_IPVER (sub_ipver : Nat) : Nat := (sub_ipver >>> 0) &&& 0xF
def MP_PRIO_B : Nat := 0x01

/-- The function `dummy_print`: the decoder of the `unknown` slot. -/
def dummy_print (_opt : List u_char) (_opt_len : Nat) (_flags : u_char) : Run Int :=
  return 1

/-- The function `mp_capable_print`. Field offsets of `struct mp_capable`: `sub_ver` 2,
`flags` 3, `sender_key` 4, `receiver_key` 12. -/
def mp_capable_print (opt : List u_char) (opt_len : Nat) (flags : u_char) : Run Int := do
  if ¬(opt_len = 12 ∧ flags.val &&& TH_SYN ≠ 0) ∧
      ¬(opt_len = 20 ∧ flags.val &&& (TH_SYN ||| TH_ACK) = TH_ACK) then
    return 0
  if MP_CAPABLE_OPT_VERSION (← rd opt 2) ≠ 0 then
    printf (" Unknown Version (" ++ fmt_u (MP_CAPABLE_OPT_VERSION (← rd opt 2)) ++ ")")
    return 1
  if (← rd opt 3) &&& MP_CAPABLE_C ≠ 0 then
    printf " csum"
  printf (" \x7b0x" ++ fmt_x (← EXTRACT_64BITS opt 4))
  if opt_len = 20 then
    printf (",0x" ++ fmt_x (← EXTRACT_64BITS opt 12))
  printf "\x7d"
  return 1

/-- The `for` loop of `case 24` of `mp_join_print`, from index `i` with `n`
iterations left: `printf("%02x", mpj->u.ack.mac[i])`; `mac` starts at
offset 4. -/
def mp_join_mac_loop (opt : List u_char) (i : Nat) : Nat → Run Unit
  | 0 => pure ()
  | n + 1 => do
    printf (fmt_02x (← rd opt (4 + i)))
    mp_join_mac_loop opt (i + 1) n

/-- The function `mp_join_print`. Field offsets of `struct mp_join`: `sub_b` 2, `addr_id` 3,
`u.syn.token` 4, `u.syn.nonce` 8, `u.synack.mac` 4, `u.synack.nonce` 12,
`u.ack.mac` 4 (20 octets). -/
def mp_join_print (opt : List u_char) (opt_len : Nat) (flags : u_char) : Run Int := do
  if ¬(opt_len = 12 ∧ flags.val &&& TH_SYN ≠ 0) ∧
      ¬(opt_len = 16 ∧ flags.val &&& (TH_SYN ||| TH_ACK) = (TH_SYN ||| TH_ACK)) ∧
      ¬(opt_len = 24 ∧ flags.val &&& TH_ACK ≠ 0) then
    return 0
  if opt_len ≠ 24 then
    if (← rd opt 2) &&& MP_JOIN_B ≠ 0 then
      printf " backup"
    printf (" id " ++ fmt_u (← rd opt 3))
  if opt_len = 12 then
    let token ← EXTRACT_32BITS opt 4
    let nonce ← EXTRACT_32BITS opt 8
    printf (" token 0x" ++ fmt_x token ++ " nonce 0x" ++ fmt_x nonce)
  else if opt_len = 16 then
    let mac ← EXTRACT_64BITS opt 4
    let nonce ← EXTRACT_32BITS opt 12
    printf (" hmac 0x" ++ fmt_x mac ++ " nonce 0x" ++ fmt_x nonce)
  else if opt_len = 24 then
    printf " hmac 0x"
    mp_join_mac_loop opt 0 20
  return 1

/-- The function `mp_dss_len`. `m->flags` is the octet at offset 3 of `struct mp_dss`; each
use of it is a read. -/
def mp_dss_len (m : List u_char) (csum : Int) : Run Nat := do
  let mut len := 4
  if (← rd m 3) &&& MP_DSS_A ≠ 0 then
    len := len + (if (← rd m 3) &&& MP_DSS_a ≠ 0 then 8 else 4)
  if (← rd m 3) &&& MP_DSS_M ≠ 0 then
    len := len + (if (← rd m 3) &&& MP_DSS_m ≠ 0 then 14 else 10)
    if csum ≠ 0 then
      len := len + 2
  return len

/-- The function `mp_dss_print`. The cursor `opt += k` is the offset `p`. -/
def mp_dss_print (opt : List u_char) (opt_len : Nat) (flags : u_char) : Run Int := do
  let mismatch ←
    (do
      if opt_len ≠ (← mp_dss_len opt 1) then
        return decide (opt_len ≠ (← mp_dss_len opt 0))
      else
        return false : Run Bool)
  if mismatch = true ∨ flags.val &&& TH_SYN ≠ 0 then
    return 0
  if (← rd opt 3) &&& MP_DSS_F ≠ 0 then
    printf " fin"
  let mut p := 4
  if (← rd opt 3) &&& MP_DSS_A ≠ 0 then
    printf " ack "
    if (← rd opt 3) &&& MP_DSS_a ≠ 0 then
      printf (fmt_u (← EXTRACT_64BITS opt p))
      p := p + 8
    else
      printf (fmt_u (← EXTRACT_32BITS opt p))
      p := p + 4
  if (← rd opt 3) &&& MP_DSS_M ≠ 0 then
    printf " seq "
    if (← rd opt 3) &&& MP_DSS_m ≠ 0 then
      printf (fmt_u (← EXTRACT_64BITS opt p))
      p := p + 8
    else
      printf (fmt_u (← EXTRACT_32BITS opt p))
      p := p + 4
    printf (" subseq " ++ fmt_u (← EXTRACT_32BITS opt p))
    p := p + 4
    printf (" len " ++ fmt_u (← EXTRACT_16BITS opt p))
    p := p + 2
    if opt_len = (← mp_dss_len opt 1) then
      printf (" csum 0x" ++ fmt_x (← EXTRACT_16BITS opt p))
  return 1

/-- What the build supplies to `add_addr_print`: whether `INET6` is defined,
and the address formatters `ipaddr_string` and `ip6addr_string` of
`addrtoname.h` (absent), applied to the octets of the address. -/
structure Env where
  INET6 : Bool
  ipaddr_string : List Nat → String
  ip6addr_string : List Nat → String

/-- The function `add_addr_print`. Field offsets of `struct mp_add_addr`: `sub_ipver` 2,
`addr_id` 3, `u.v4.addr` 4, `u.v4.port` 8, `u.v6.addr` 4, `u.v6.port` 20. -/
def add_addr_print (env : Env) (opt : List u_char) (opt_len : Nat) (_flags : u_char) :
    Run Int := do
  let ipver := MP_ADD_ADDR_IPVER (← rd opt 2)
  if ¬((opt_len = 8 ∨ opt_len = 10) ∧ ipver = 4) ∧
      ¬((opt_len = 20 ∨ opt_len = 22) ∧ ipver = 6) then
    return 0
  printf (" id " ++ fmt_u (← rd opt 3))
  if ipver = 4 then
    printf (" " ++ env.ipaddr_string (← rdN opt 4 4))
    if opt_len = 10 then
      printf (":" ++ fmt_u (← EXTRACT_16BITS opt 8))
  else if ipver = 6 then
    if env.INET6 = true then
      printf (" " ++ env.ip6addr_string (← rdN opt 4 16))
    if opt_len = 22 then
      printf (":" ++ fmt_u (← EXTRACT_16BITS opt 20))
  else
    return 0
  return 1

/-- The `while (opt_len--)` loop of `remove_addr_print`:
`printf(" %u", *addr_id++)`, with `addr_id` the index of the next octet. -/
def remove_addr_loop (opt : List u_char) : Nat → Nat → Run Unit
  | 0, _ => pure ()
  | opt_len + 1, addr_id => do
    printf (" " ++ fmt_u (← rd opt addr_id))
    remove_addr_loop opt opt_len (addr_id + 1)

/-- The function `remove_addr_print`. `addrs_id` is at offset 3 of `struct mp_remove_addr`. -/
def remove_addr_print (opt : List u_char) (opt_len : Nat) (_flags : u_char) : Run Int := do
  if opt_len < 4 then
    return 0
  let opt_len := opt_len - 3
  printf " id"
  remove_addr_loop opt opt_len 3
  return 1

/-- The function `mp_prio_print`. Field offsets of `struct mp_prio`: `sub_b` 2, `addr_id` 3. -/
def mp_prio_print (opt : List u_char) (opt_len : Nat) (_flags : u_char) : Run Int := do
  if opt_len ≠ 3 ∧ opt_len ≠ 4 then
    return 0
  if (← rd opt 2) &&& MP_PRIO_B ≠ 0 then
    printf " backup"
  else
    printf " non-backup"
  if opt_len = 4 then
    printf (" id " ++ fmt_u (← rd opt 3))
  return 1

/-- The function `mp_fail_print`; `opt + 4` is the offset 4. -/
def mp_fail_print (opt : List u_char) (opt_len : Nat) (_flags : u_char) : Run Int := do
  if opt_len ≠ 12 then
    return 0
  printf (" seq " ++ fmt_u (← EXTRACT_64BITS opt (0 + 4)))
  return 1

/-- The function `mp_fast_close_print`; `opt + 4` is the offset 4. -/
def mp_fast_close_print (opt : List u_char) (opt_len : Nat) (_flags : u_char) : Run Int := do
  if opt_len ≠ 12 then
    return 0
  printf (" key 0x" ++ fmt_x (← EXTRACT_64BITS opt (0 + 4)))
  return 1

/-- An entry of the table `mptcp_options`. -/
structure OptEntry where
  name : String
  print : List u_char → Nat → u_char → Run Int

/-- The table `mptcp_options`. -/
def mptcp_options (env : Env) : List OptEntry :=
  [ ⟨"capable", mp_capable_print⟩,
    ⟨"join", mp_join_print⟩,
    ⟨"dss", mp_dss_print⟩,
    ⟨"add-addr", add_addr_print env⟩,
    ⟨"rem-addr", remove_addr_print⟩,
    ⟨"prio", mp_prio_print⟩,
    ⟨"fail", mp_fail_print⟩,
    ⟨"fast-close", mp_fast_close_print⟩,
    ⟨"unknown", dummy_print⟩ ]

/-- The function `mptcp_print`. `opt->sub_etc` is the octet at offset 2; the index
`min(.., MPTCP_SUB_FCLOSE + 1)` is at most 8 and so lies inside the table of
nine entries. -/
def mptcp_print (env : Env) (cp : List u_char) (len : Nat) (flags : u_char) : Run Int := do
  if len < 3 then
    return 0
  let sub_etc ← rd cp 2
  let subtype := min (MPTCP_OPT_SUBTYPE sub_etc) (MPTCP_SUB_FCLOSE + 1)
  let entry := (mptcp_options env).get ⟨subtype, Nat.lt_succ_of_le (Nat.min_le_right _ 8)⟩
  printf (" " ++ entry.name)
  entry.print cp len flags

/-- Modelled from the spec: the formatter `ipv4_to_text(4 bytes)`, dotted-quad
text of the octets of an IPv4 address. -/
def ipv4_to_text (addr : List Nat) : String :=
  ".".intercalate (addr.map fmt_u)

/-- A build without `INET6` whose `ipaddr_string` writes dotted-quad text;
`ip6addr_string` is never called in such a build. -/
def env4 : Env :=
  { INET6 := false, ipaddr_string := ipv4_to_text, ip6addr_string := fun _ => "" }

/-! ## Vocabulary of the statements -/

/-- The octet at index `i` of the buffer, as a number (0 when the buffer has
no such index). -/
def octet (cp : List u_char) (i : Nat) : Nat :=
  match cp[i]? with
  | some b => b.val
  | none => 0

/-- The octets of the buffer from index `off`, `n` of them, as numbers. -/
def octets (cp : List u_char) (off n : Nat) : List Nat :=
  ((cp.drop off).take n).map Fin.val

/-- The big-endian integer held in the `n` octets of the buffer from index
`off`. -/
def field (cp : List u_char) (off n : Nat) : Nat := be (octets cp off n)

/-- The text of a sequence of octets, two lowercase hexadecimal digits for
each octet, in order. -/
def hex02 : List Nat → String
  | [] => ""
  | b :: bs => fmt_02x b ++ hex02 bs

/-- The text of a sequence of numbers, each in decimal after one space, in
order. -/
def dec_list : List Nat → String
  | [] => ""
  | b :: bs => " " ++ fmt_u b ++ dec_list bs

/-- The value `mp_dss_len` computes, as a function of the DSS flags octet. -/
def dss_len (fl : Nat) (csum : Int) : Nat :=
  4 + (if fl &&& MP_DSS_A ≠ 0 then (if fl &&& MP_DSS_a ≠ 0 then 8 else 4) else 0) +
    (if fl &&& MP_DSS_M ≠ 0 then
      (if fl &&& MP_DSS_m ≠ 0 then 14 else 10) + (if csum ≠ 0 then 2 else 0)
     else 0)

/-- The number of octets of the data-ack field of a DSS option: none without
the A flag, else 8 with the a flag and 4 without. -/
def dss_ack_width (fl : Nat) : Nat :=
  if fl &&& MP_DSS_A = 0 then 0 else if fl &&& MP_DSS_a = 0 then 4 else 8

/-- The number of octets of the data sequence number of a DSS option: 8 with
the m flag and 4 without. -/
def dss_dsn_width (fl : Nat) : Nat :=
  if fl &&& MP_DSS_m = 0 then 4 else 8

/-- The DSS length rule in the words of the specification (section 3): base 4
octets; if the A flag is set, add 8 if the a flag is set else 4; if the M flag
is set, add 14 if the m flag is set else 10; if a checksum was negotiated,
add 2. -/
def spec_dss_len (fl : Nat) (csum : Nat) : Nat :=
  4 + (if fl &&& 0x01 ≠ 0 then (if fl &&& 0x02 ≠ 0 then 8 else 4) else 0) +
    (if fl &&& 0x04 ≠ 0 then (if fl &&& 0x08 ≠ 0 then 14 else 10) else 0) +
    (if csum = 1 then 2 else 0)

/-- The short names of the table `mptcp_options`, in order. -/
def short_names : List String :=
  ["capable", "join", "dss", "add-addr", "rem-addr", "prio", "fail", "fast-close", "unknown"]

/-- The number a sequence of decimal digit characters denotes, most
significant digit first. -/
def parse_dec (cs : List Char) : Nat :=
  cs.foldl (fun acc c => acc * 10 + (c.toNat - '0'.toNat)) 0

/-- The `k` octets of the number `n` in network byte order (most significant
octet first). -/
def be_octets : Nat → Nat → List Nat
  | 0, _ => []
  | k + 1, n => (n / 256 ^ k) % 256 :: be_octets k n

/-! ## Buffers of the scenarios -/

/-- The buffer `1E 03 20`: a DSS option of three octets. -/
def dss_short_buf : List u_char := [0x1E, 0x03, 0x20]

/-- The buffer `1E 04 50 03` of the MP_PRIO scenario. -/
def prio_buf : List u_char := [0x1E, 0x04, 0x50, 0x03]

/-- The buffer `1E 0C 00 00 00 00 00 00 00 00 00 01` of the MP_CAPABLE SYN
scenario. -/
def capable_syn_buf : List u_char :=
  [0x1E, 0x0C, 0x00, 0x00, 0x00, 0x00, 0x00, 0x00, 0x00, 0x00, 0x00, 0x01]

/-- The buffer `1E 0C 10 01 07 DE AD BE EF CA FE BA BE` of the MP_JOIN SYN
scenario, as the specification prints it (13 octets). -/
def join_syn_buf : List u_char :=
  [0x1E, 0x0C, 0x10, 0x01, 0x07, 0xDE, 0xAD, 0xBE, 0xEF, 0xCA, 0xFE, 0xBA, 0xBE]

/-- The buffer `1E 0C 11 01 DE AD BE EF CA FE BA BE`: an MP_JOIN option of 12
octets with the B bit, address id 1, token `deadbeef` and nonce `cafebabe`. -/
def join_backup_buf : List u_char :=
  [0x1E, 0x0C, 0x11, 0x01, 0xDE, 0xAD, 0xBE, 0xEF, 0xCA, 0xFE, 0xBA, 0xBE]

/-- An MP_JOIN option of 16 octets: address id 1, truncated HMAC
`0102030405060708`, nonce `cafebabe`. -/
def join_synack_buf : List u_char :=
  [0x1E, 0x10, 0x10, 0x01, 0x01, 0x02, 0x03, 0x04, 0x05, 0x06, 0x07, 0x08,
    0xCA, 0xFE, 0xBA, 0xBE]

/-- A DSS option of 10 octets whose flags octet is `01` (A only), followed by
six zero octets. -/
def dss_ack_buf : List u_char :=
  [0x1E, 0x0A, 0x20, 0x01, 0x00, 0x00, 0x00, 0x00, 0x00, 0x00]

/-- The DSS scenario: flags `0F`, 8-byte ack `0x100`, 8-byte seq `0x200`,
subseq 3, len `0x10`, csum `0xABCD` (28 octets). -/
def dss_full_buf : List u_char :=
  [0x1E, 0x1C, 0x20, 0x0F,
    0x00, 0x00, 0x00, 0x00, 0x00, 0x00, 0x01, 0x00,
    0x00, 0x00, 0x00, 0x00, 0x00, 0x00, 0x02, 0x00,
    0x00, 0x00, 0x00, 0x03,
    0x00, 0x10,
    0xAB, 0xCD]

/-- The ADD_ADDR scenario: ipver nibble 4, length 10, address id 5, address
192.0.2.1, port 8080. -/
def add_addr_buf : List u_char :=
  [0x1E, 0x0A, 0x34, 0x05, 0xC0, 0x00, 0x02, 0x01, 0x1F, 0x90]


/-- The buffer `1E 06 40 07 08 09` of the REMOVE_ADDR scenario. -/
def rem_addr_buf : List u_char := [0x1E, 0x06, 0x40, 0x07, 0x08, 0x09]

/-- An MP_CAPABLE option of 12 octets whose version nibble is 1. -/
def capable_v1_buf : List u_char :=
  [0x1E, 0x0C, 0x01, 0x80, 0x00, 0x00, 0x00, 0x00, 0x00, 0x00, 0x00, 0x01]

/-- An MP_FAIL option of 12 octets: reserved octet `FF`, data sequence number
`00 00 00 00 00 00 01 00`. -/
def fail_buf : List u_char :=
  [0x1E, 0x0C, 0x60, 0xFF, 0x00, 0x00, 0x00, 0x00, 0x00, 0x00, 0x01, 0x00]

/-- An MP_JOIN option of 24 octets whose HMAC is `01 02 .. 13 FF`; the low
nibble of octet 2 and octet 3 are set. -/
def join_ack_buf : List u_char :=
  [0x1E, 0x18, 0x1F, 0xEE, 0x01, 0x02, 0x03, 0x04, 0x05, 0x06, 0x07, 0x08, 0x09, 0x0A,
    0x0B, 0x0C, 0x0D, 0x0E, 0x0F, 0x10, 0x11, 0x12, 0x13, 0xFF]

/-- A DSS option of 8 octets whose flags octet is `11` (F and A, M clear) and
whose data-ack is 7. -/
def dss_fin_ack_buf : List u_char :=
  [0x1E, 0x08, 0x20, 0x11, 0x00, 0x00, 0x00, 0x07]

/-- An MP_FAIL option of 12 octets whose data sequence number is
`FF FF FF FF FF FF FF FF`, the largest 64-bit value. -/
def fail_max_buf : List u_char :=
  [0x1E, 0x0C, 0x60, 0x00, 0xFF, 0xFF, 0xFF, 0xFF, 0xFF, 0xFF, 0xFF, 0xFF]

/-! ## The sequencing of runs -/

@[simp] theorem pure_eq {α : Type} (v : α) : (pure v : Run α) = ⟨"", .done v⟩ := rfl

@[simp] theorem bind_eq {α β : Type} (m : Run α) (f : α → Run β) :
    (m >>= f) = Run.bind m f := rfl

@[simp] theorem bind_done {α β : Type} (o : String) (v : α) (f : α → Run β) :
    Run.bind ⟨o, .done v⟩ f = ⟨o ++ (f v).out, (f v).res⟩ := rfl

@[simp] theorem bind_fault {α β : Type} (o : String) (i : Nat) (f : α → Run β) :
    Run.bind ⟨o, .fault i⟩ f = ⟨o, .fault i⟩ := rfl

theorem bind_pure_left {α β : Type} (v : α) (f : α → Run β) :
    ((⟨"", .done v⟩ : Run α) >>= f) = f v := by
  show (⟨"" ++ (f v).out, (f v).res⟩ : Run β) = f v
  rw [String.empty_append]

theorem bind_pure_eq {α β : Type} (v : α) (f : α → Run β) :
    ((pure v : Run α) >>= f) = f v := bind_pure_left v f

theorem bind_printf {β : Type} (s : String) (f : PUnit → Run β) :
    (printf s >>= f) = Run.after s (f ()) := rfl

theorem bind_mk_done {α β : Type} (o : String) (v : α) (f : α → Run β) :
    ((⟨o, .done v⟩ : Run α) >>= f) = Run.after o (f v) := rfl

theorem bind_mk_fault {α β : Type} (o : String) (i : Nat) (f : α → Run β) :
    ((⟨o, .fault i⟩ : Run α) >>= f) = ⟨o, .fault i⟩ := rfl

@[simp] theorem after_mk {α : Type} (s o : String) (r : Status α) :
    Run.after s ⟨o, r⟩ = ⟨s ++ o, r⟩ := rfl

/-! ## Reads inside the buffer -/

theorem octet_lt (cp : List u_char) (i : Nat) : octet cp i < 256 := by
  unfold octet
  split
  · exact Fin.isLt _
  · decide

theorem rd_eq {cp : List u_char} {i : Nat} (h : i < cp.length) :
    rd cp i = ⟨"", .done (octet cp i)⟩ := by
  simp [rd, octet, List.getElem?_eq_getElem h]

theorem rd_fault {cp : List u_char} {i : Nat} (h : cp.length ≤ i) :
    rd cp i = ⟨"", .fault i⟩ := by
  simp [rd, List.getElem?_eq_none h]

theorem octets_succ (cp : List u_char) (off n : Nat) (h : off < cp.length) :
    octets cp off (n + 1) = octet cp off :: octets cp (off + 1) n := by
  unfold octets
  rw [List.drop_eq_getElem_cons h, List.take_succ_cons, List.map_cons]
  congr 1
  simp [octet, List.getElem?_eq_getElem h]

theorem rdN_eq (cp : List u_char) (n : Nat) : ∀ off : Nat, off + n ≤ cp.length →
    rdN cp off n = ⟨"", .done (octets cp off n)⟩ := by
  induction n with
  | zero => intro off _; simp [rdN, octets]
  | succ n ih =>
    intro off h
    have h1 : off < cp.length := by omega
    rw [rdN, octets_succ cp off n h1]
    simp [rd_eq h1, ih (off + 1) (by omega)]

theorem EXTRACT_16BITS_eq {cp : List u_char} {off : Nat} (h : off + 2 ≤ cp.length) :
    EXTRACT_16BITS cp off = ⟨"", .done (field cp off 2)⟩ := by
  simp [EXTRACT_16BITS, rdN_eq cp 2 off h, field]

theorem EXTRACT_32BITS_eq {cp : List u_char} {off : Nat} (h : off + 4 ≤ cp.length) :
    EXTRACT_32BITS cp off = ⟨"", .done (field cp off 4)⟩ := by
  simp [EXTRACT_32BITS, rdN_eq cp 4 off h, field]

theorem EXTRACT_64BITS_eq {cp : List u_char} {off : Nat} (h : off + 8 ≤ cp.length) :
    EXTRACT_64BITS cp off = ⟨"", .done (field cp off 8)⟩ := by
  simp [EXTRACT_64BITS, rdN_eq cp 8 off h, field]

theorem bind_rd {β : Type} {cp : List u_char} {i : Nat} (f : Nat → Run β)
    (h : i < cp.length) : (rd cp i >>= f) = f (octet cp i) := by
  rw [rd_eq h, bind_pure_left]

theorem bind_EXTRACT_16BITS {β : Type} {cp : List u_char} {off : Nat} (f : Nat → Run β)
    (h : off + 2 ≤ cp.length) : (EXTRACT_16BITS cp off >>= f) = f (field cp off 2) := by
  rw [EXTRACT_16BITS_eq h, bind_pure_left]

theorem bind_EXTRACT_32BITS {β : Type} {cp : List u_char} {off : Nat} (f : Nat → Run β)
    (h : off + 4 ≤ cp.length) : (EXTRACT_32BITS cp off >>= f) = f (field cp off 4) := by
  rw [EXTRACT_32BITS_eq h, bind_pure_left]

theorem bind_EXTRACT_64BITS {β : Type} {cp : List u_char} {off : Nat} (f : Nat → Run β)
    (h : off + 8 ≤ cp.length) : (EXTRACT_64BITS cp off >>= f) = f (field cp off 8) := by
  rw [EXTRACT_64BITS_eq h, bind_pure_left]

/-! ## Bits of an octet -/

set_option maxRecDepth 100000 in
theorem subtype_octet : ∀ b : Fin 256, MPTCP_OPT_SUBTYPE b.val = b.val >>> 4 := by
  decide

theorem subtype_eq (cp : List u_char) (i : Nat) :
    MPTCP_OPT_SUBTYPE (octet cp i) = octet cp i >>> 4 :=
  subtype_octet ⟨octet cp i, octet_lt cp i⟩

set_option maxRecDepth 100000 in
theorem ack_only_iff : ∀ f : u_char,
    (f.val &&& (TH_SYN ||| TH_ACK) = TH_ACK ↔ f.val &&& 0x10 ≠ 0 ∧ f.val &&& 0x02 = 0) := by
  decide

set_option maxRecDepth 100000 in
theorem syn_ack_iff : ∀ f : u_char,
    (f.val &&& (TH_SYN ||| TH_ACK) = (TH_SYN ||| TH_ACK) ↔
      f.val &&& 0x02 ≠ 0 ∧ f.val &&& 0x10 ≠ 0) := by
  decide

/-! ## The dispatcher -/

theorem mptcp_print_short (env : Env) (cp : List u_char) (len : Nat) (flags : u_char)
    (h : len < 3) : mptcp_print env cp len flags = ⟨"", .done 0⟩ := by
  unfold mptcp_print
  rw [if_pos h]
  rfl

theorem mptcp_print_eq (env : Env) (cp : List u_char) (len : Nat) (flags : u_char)
    (h3 : 3 ≤ len) (hbuf : 3 ≤ cp.length) (e : OptEntry)
    (he : (mptcp_options env)[min (octet cp 2 >>> 4) 8]? = some e) :
    mptcp_print env cp len flags =
      ⟨" " ++ e.name ++ (e.print cp len flags).out, (e.print cp len flags).res⟩ := by
  have r2 : rd cp 2 = ⟨"", .done (octet cp 2)⟩ := rd_eq (by omega)
  have hlt : min (octet cp 2 >>> 4) 8 < (mptcp_options env).length :=
    Nat.lt_succ_of_le (Nat.min_le_right _ 8)
  rw [List.getElem?_eq_getElem hlt] at he
  have he' : (mptcp_options env)[min (octet cp 2 >>> 4) 8] = e := by simpa using he
  unfold mptcp_print
  rw [if_neg (by omega)]
  simp [r2, subtype_eq, printf, MPTCP_SUB_FCLOSE, he', String.append_assoc,
    -String.reduceAppend]

/-! ## The decoders on a buffer that holds the option -/

theorem mp_capable_print_eq (cp : List u_char) (len : Nat) (flags : u_char)
    (h : len ≤ cp.length) :
    mp_capable_print cp len flags =
      if ¬(len = 12 ∧ flags.val &&& TH_SYN ≠ 0) ∧
          ¬(len = 20 ∧ flags.val &&& (TH_SYN ||| TH_ACK) = TH_ACK) then ⟨"", .done 0⟩
      else if MP_CAPABLE_OPT_VERSION (octet cp 2) = 0 then
        ⟨(if octet cp 3 &&& MP_CAPABLE_C = 0 then "" else " csum") ++ " \x7b0x" ++
          fmt_x (field cp 4 8) ++
          (if len = 20 then ",0x" ++ fmt_x (field cp 12 8) else "") ++ "\x7d", .done 1⟩
      else
        ⟨" Unknown Version (" ++ fmt_u (MP_CAPABLE_OPT_VERSION (octet cp 2)) ++ ")", .done 1⟩ := by
  by_cases hc : ¬(len = 12 ∧ flags.val &&& TH_SYN ≠ 0) ∧
          ¬(len = 20 ∧ flags.val &&& (TH_SYN ||| TH_ACK) = TH_ACK)
  · rw [if_pos hc]
    unfold mp_capable_print
    rw [if_pos hc]
    rfl
  · rw [if_neg hc]
    have h12 : 12 ≤ len := by
      by_contra hh
      apply hc
      constructor <;> intro hx <;> omega
    have r2 : rd cp 2 = ⟨"", .done (octet cp 2)⟩ := rd_eq (by omega)
    have r3 : rd cp 3 = ⟨"", .done (octet cp 3)⟩ := rd_eq (by omega)
    have e4 := @EXTRACT_64BITS_eq cp 4 (by omega)
    unfold mp_capable_print
    rw [if_neg hc]
    by_cases hv : MP_CAPABLE_OPT_VERSION (octet cp 2) = 0
    · by_cases h3 : octet cp 3 &&& MP_CAPABLE_C = 0 <;> by_cases h20 : len = 20
      · have e12 := @EXTRACT_64BITS_eq cp 12 (by omega)
        simp [r2, r3, e4, e12, hv, h3, h20, printf, String.append_assoc, -String.reduceAppend]
      · simp [r2, r3, e4, hv, h3, h20, printf, String.append_assoc, -String.reduceAppend]
      · have e12 := @EXTRACT_64BITS_eq cp 12 (by omega)
        simp [r2, r3, e4, e12, hv, h3, h20, printf, String.append_assoc, -String.reduceAppend]
      · simp [r2, r3, e4, hv, h3, h20, printf, String.append_assoc, -String.reduceAppend]
    · simp [r2, hv, printf, -String.reduceAppend]

theorem mp_join_mac_loop_eq (cp : List u_char) (n : Nat) : ∀ i : Nat,
    4 + i + n ≤ cp.length →
    mp_join_mac_loop cp i n = ⟨hex02 (octets cp (4 + i) n), .done ()⟩ := by
  induction n with
  | zero => intro i _; simp [mp_join_mac_loop, octets, hex02]
  | succ n ih =>
    intro i h
    have h1 : 4 + i < cp.length := by omega
    rw [mp_join_mac_loop, octets_succ cp (4 + i) n h1]
    have h2 := ih (i + 1) (by omega)
    rw [show 4 + (i + 1) = 4 + i + 1 by omega] at h2
    simp [rd_eq h1, h2, printf, hex02]

theorem mp_join_print_eq (cp : List u_char) (len : Nat) (flags : u_char)
    (h : len ≤ cp.length) :
    mp_join_print cp len flags =
      if ¬(len = 12 ∧ flags.val &&& TH_SYN ≠ 0) ∧
          ¬(len = 16 ∧ flags.val &&& (TH_SYN ||| TH_ACK) = (TH_SYN ||| TH_ACK)) ∧
          ¬(len = 24 ∧ flags.val &&& TH_ACK ≠ 0) then ⟨"", .done 0⟩
      else if len = 24 then ⟨" hmac 0x" ++ hex02 (octets cp 4 20), .done 1⟩
      else
        ⟨(if octet cp 2 &&& MP_JOIN_B = 0 then "" else " backup") ++ " id " ++
          fmt_u (octet cp 3) ++
          (if len = 12 then
            " token 0x" ++ fmt_x (field cp 4 4) ++ " nonce 0x" ++ fmt_x (field cp 8 4)
           else " hmac 0x" ++ fmt_x (field cp 4 8) ++ " nonce 0x" ++ fmt_x (field cp 12 4)),
          .done 1⟩ := by
  by_cases hc : ¬(len = 12 ∧ flags.val &&& TH_SYN ≠ 0) ∧
      ¬(len = 16 ∧ flags.val &&& (TH_SYN ||| TH_ACK) = (TH_SYN ||| TH_ACK)) ∧
      ¬(len = 24 ∧ flags.val &&& TH_ACK ≠ 0)
  · rw [if_pos hc]
    unfold mp_join_print
    rw [if_pos hc]
    rfl
  · rw [if_neg hc]
    have hl : len = 12 ∨ len = 16 ∨ len = 24 := by
      by_contra hh
      apply hc
      refine ⟨?_, ?_, ?_⟩ <;> intro hx <;> omega
    unfold mp_join_print
    rw [if_neg hc]
    rcases hl with h12 | h16 | h24
    · subst h12
      have r2 : rd cp 2 = ⟨"", .done (octet cp 2)⟩ := rd_eq (by omega)
      have r3 : rd cp 3 = ⟨"", .done (octet cp 3)⟩ := rd_eq (by omega)
      have e4 := @EXTRACT_32BITS_eq cp 4 (by omega)
      have e8 := @EXTRACT_32BITS_eq cp 8 (by omega)
      by_cases hb : octet cp 2 &&& MP_JOIN_B = 0
      · simp [r2, r3, e4, e8, hb, printf, String.append_assoc, -String.reduceAppend]
      · simp [r2, r3, e4, e8, hb, printf, String.append_assoc, -String.reduceAppend]
    · subst h16
      have r2 : rd cp 2 = ⟨"", .done (octet cp 2)⟩ := rd_eq (by omega)
      have r3 : rd cp 3 = ⟨"", .done (octet cp 3)⟩ := rd_eq (by omega)
      have e4 := @EXTRACT_64BITS_eq cp 4 (by omega)
      have e12 := @EXTRACT_32BITS_eq cp 12 (by omega)
      by_cases hb : octet cp 2 &&& MP_JOIN_B = 0
      · simp [r2, r3, e4, e12, hb, printf, String.append_assoc, -String.reduceAppend]
      · simp [r2, r3, e4, e12, hb, printf, String.append_assoc, -String.reduceAppend]
    · subst h24
      have hm := mp_join_mac_loop_eq cp 20 0 (by omega)
      simp [hm, printf, String.append_assoc, -String.reduceAppend]

theorem mptcp_print_sub (env : Env) (cp : List u_char) (len : Nat) (flags : u_char)
    (h3 : 3 ≤ len) (hbuf : 3 ≤ cp.length) (k : Nat) (name : String)
    (print : List u_char → Nat → u_char → Run Int)
    (hsub : min (octet cp 2 >>> 4) 8 = k)
    (hk : (mptcp_options env)[k]? = some ⟨name, print⟩) :
    mptcp_print env cp len flags = Run.after (" " ++ name) (print cp len flags) := by
  rw [← hsub] at hk
  rw [mptcp_print_eq env cp len flags h3 hbuf _ hk]
  rfl

theorem mptcp_print_capable (env : Env) (cp : List u_char) (len : Nat) (flags : u_char)
    (h3 : 3 ≤ len) (hbuf : 3 ≤ cp.length) (hsub : octet cp 2 >>> 4 = 0) :
    mptcp_print env cp len flags = Run.after " capable" (mp_capable_print cp len flags) :=
  mptcp_print_sub env cp len flags h3 hbuf 0 "capable" _ (by rw [hsub]; rfl) rfl

theorem mptcp_print_join (env : Env) (cp : List u_char) (len : Nat) (flags : u_char)
    (h3 : 3 ≤ len) (hbuf : 3 ≤ cp.length) (hsub : octet cp 2 >>> 4 = 1) :
    mptcp_print env cp len flags = Run.after " join" (mp_join_print cp len flags) :=
  mptcp_print_sub env cp len flags h3 hbuf 1 "join" _ (by rw [hsub]; rfl) rfl

theorem mptcp_print_dss (env : Env) (cp : List u_char) (len : Nat) (flags : u_char)
    (h3 : 3 ≤ len) (hbuf : 3 ≤ cp.length) (hsub : octet cp 2 >>> 4 = 2) :
    mptcp_print env cp len flags = Run.after " dss" (mp_dss_print cp len flags) :=
  mptcp_print_sub env cp len flags h3 hbuf 2 "dss" _ (by rw [hsub]; rfl) rfl

theorem mptcp_print_add_addr (env : Env) (cp : List u_char) (len : Nat) (flags : u_char)
    (h3 : 3 ≤ len) (hbuf : 3 ≤ cp.length) (hsub : octet cp 2 >>> 4 = 3) :
    mptcp_print env cp len flags = Run.after " add-addr" (add_addr_print env cp len flags) :=
  mptcp_print_sub env cp len flags h3 hbuf 3 "add-addr" _ (by rw [hsub]; rfl) rfl

theorem mptcp_print_remove_addr (env : Env) (cp : List u_char) (len : Nat) (flags : u_char)
    (h3 : 3 ≤ len) (hbuf : 3 ≤ cp.length) (hsub : octet cp 2 >>> 4 = 4) :
    mptcp_print env cp len flags = Run.after " rem-addr" (remove_addr_print cp len flags) :=
  mptcp_print_sub env cp len flags h3 hbuf 4 "rem-addr" _ (by rw [hsub]; rfl) rfl

theorem mptcp_print_prio (env : Env) (cp : List u_char) (len : Nat) (flags : u_char)
    (h3 : 3 ≤ len) (hbuf : 3 ≤ cp.length) (hsub : octet cp 2 >>> 4 = 5) :
    mptcp_print env cp len flags = Run.after " prio" (mp_prio_print cp len flags) :=
  mptcp_print_sub env cp len flags h3 hbuf 5 "prio" _ (by rw [hsub]; rfl) rfl

theorem mptcp_print_fail (env : Env) (cp : List u_char) (len : Nat) (flags : u_char)
    (h3 : 3 ≤ len) (hbuf : 3 ≤ cp.length) (hsub : octet cp 2 >>> 4 = 6) :
    mptcp_print env cp len flags = Run.after " fail" (mp_fail_print cp len flags) :=
  mptcp_print_sub env cp len flags h3 hbuf 6 "fail" _ (by rw [hsub]; rfl) rfl

theorem mptcp_print_fast_close (env : Env) (cp : List u_char) (len : Nat) (flags : u_char)
    (h3 : 3 ≤ len) (hbuf : 3 ≤ cp.length) (hsub : octet cp 2 >>> 4 = 7) :
    mptcp_print env cp len flags =
      Run.after " fast-close" (mp_fast_close_print cp len flags) :=
  mptcp_print_sub env cp len flags h3 hbuf 7 "fast-close" _ (by rw [hsub]; rfl) rfl

theorem mptcp_print_dummy (env : Env) (cp : List u_char) (len : Nat) (flags : u_char)
    (h3 : 3 ≤ len) (hbuf : 3 ≤ cp.length) (hsub : 8 ≤ octet cp 2 >>> 4) :
    mptcp_print env cp len flags = Run.after " unknown" (dummy_print cp len flags) :=
  mptcp_print_sub env cp len flags h3 hbuf 8 "unknown" _ (Nat.min_eq_right hsub) rfl

@[simp] theorem after_res {α : Type} (s : String) (r : Run α) : (Run.after s r).res = r.res :=
  rfl

@[simp] theorem after_out {α : Type} (s : String) (r : Run α) :
    (Run.after s r).out = s ++ r.out := rfl

theorem bind_rdN {β : Type} {cp : List u_char} {off n : Nat} (f : List Nat → Run β)
    (h : off + n ≤ cp.length) : (rdN cp off n >>= f) = f (octets cp off n) := by
  rw [rdN_eq cp n off h, bind_pure_left]

theorem add_addr_print_eq (env : Env) (cp : List u_char) (len : Nat) (flags : u_char)
    (h3 : 3 ≤ cp.length) (h : len ≤ cp.length) :
    add_addr_print env cp len flags =
      if ¬((len = 8 ∨ len = 10) ∧ MP_ADD_ADDR_IPVER (octet cp 2) = 4) ∧
          ¬((len = 20 ∨ len = 22) ∧ MP_ADD_ADDR_IPVER (octet cp 2) = 6) then ⟨"", .done 0⟩
      else if MP_ADD_ADDR_IPVER (octet cp 2) = 4 then
        ⟨" id " ++ fmt_u (octet cp 3) ++ " " ++ env.ipaddr_string (octets cp 4 4) ++
          (if len = 10 then ":" ++ fmt_u (field cp 8 2) else ""), .done 1⟩
      else
        ⟨" id " ++ fmt_u (octet cp 3) ++
          (if env.INET6 = true then " " ++ env.ip6addr_string (octets cp 4 16) else "") ++
          (if len = 22 then ":" ++ fmt_u (field cp 20 2) else ""), .done 1⟩ := by
  unfold add_addr_print
  by_cases hc : ¬((len = 8 ∨ len = 10) ∧ MP_ADD_ADDR_IPVER (octet cp 2) = 4) ∧
      ¬((len = 20 ∨ len = 22) ∧ MP_ADD_ADDR_IPVER (octet cp 2) = 6)
  · rw [if_pos hc]
    simp (disch := omega) [↓bind_rd, ↓bind_pure_eq, hc]
  · rw [if_neg hc]
    have hl : ((len = 8 ∨ len = 10) ∧ MP_ADD_ADDR_IPVER (octet cp 2) = 4) ∨
        ((len = 20 ∨ len = 22) ∧ MP_ADD_ADDR_IPVER (octet cp 2) = 6) := by
      by_contra hh
      exact hc ⟨fun a => hh (Or.inl a), fun a => hh (Or.inr a)⟩
    rcases hl with ⟨hlen, hv⟩ | ⟨hlen, hv⟩
    · rcases hlen with hlen | hlen <;> subst hlen <;>
      simp (disch := omega) [↓bind_rd, ↓bind_pure_eq, ↓bind_printf, ↓bind_rdN,
        ↓bind_EXTRACT_16BITS, hv, String.append_assoc, -String.reduceAppend]
    · by_cases h6 : env.INET6 = true <;>
      rcases hlen with hlen | hlen <;> subst hlen <;>
      simp (disch := omega) [↓bind_rd, ↓bind_pure_eq, ↓bind_printf, ↓bind_rdN,
        ↓bind_EXTRACT_16BITS, hv, h6, String.append_assoc, -String.reduceAppend]

theorem remove_addr_loop_eq (cp : List u_char) (n : Nat) : ∀ p : Nat, p + n ≤ cp.length →
    remove_addr_loop cp n p = ⟨dec_list (octets cp p n), .done ()⟩ := by
  induction n with
  | zero => intro p _; simp [remove_addr_loop, octets, dec_list]
  | succ n ih =>
    intro p h
    have h1 : p < cp.length := by omega
    rw [remove_addr_loop, octets_succ cp p n h1]
    simp (disch := omega) [↓bind_rd, ↓bind_printf, ih (p + 1) (by omega), dec_list,
      String.append_assoc, -String.reduceAppend]

theorem remove_addr_print_eq (cp : List u_char) (len : Nat) (flags : u_char)
    (h : len ≤ cp.length) :
    remove_addr_print cp len flags =
      if len < 4 then ⟨"", .done 0⟩
      else ⟨" id" ++ dec_list (octets cp 3 (len - 3)), .done 1⟩ := by
  unfold remove_addr_print
  by_cases hc : len < 4
  · simp [hc]
  · have hl := remove_addr_loop_eq cp (len - 3) 3 (by omega)
    simp (disch := omega) [↓bind_pure_eq, ↓bind_printf, hc, hl, -String.reduceAppend]

theorem mp_prio_print_eq (cp : List u_char) (len : Nat) (flags : u_char)
    (h : len ≤ cp.length) :
    mp_prio_print cp len flags =
      if len ≠ 3 ∧ len ≠ 4 then ⟨"", .done 0⟩
      else
        ⟨(if octet cp 2 &&& MP_PRIO_B = 0 then " non-backup" else " backup") ++
          (if len = 4 then " id " ++ fmt_u (octet cp 3) else ""), .done 1⟩ := by
  unfold mp_prio_print
  by_cases hc : len ≠ 3 ∧ len ≠ 4
  · simp [hc]
  · rw [if_neg hc, if_neg hc]
    have hl : len = 3 ∨ len = 4 := by omega
    by_cases hb : octet cp 2 &&& MP_PRIO_B = 0 <;>
    rcases hl with hl | hl <;> subst hl <;>
    simp (disch := omega) [↓bind_rd, ↓bind_pure_eq, ↓bind_printf, hb,
      String.append_assoc, -String.reduceAppend]

theorem mp_fail_print_eq (cp : List u_char) (len : Nat) (flags : u_char)
    (h : len ≤ cp.length) :
    mp_fail_print cp len flags =
      if len ≠ 12 then ⟨"", .done 0⟩
      else ⟨" seq " ++ fmt_u (field cp 4 8), .done 1⟩ := by
  unfold mp_fail_print
  by_cases hc : len ≠ 12
  · simp [hc]
  · have hl : len = 12 := by omega
    subst hl
    simp (disch := omega) [↓bind_pure_eq, ↓bind_printf, ↓bind_EXTRACT_64BITS,
      -String.reduceAppend]

theorem mp_fast_close_print_eq (cp : List u_char) (len : Nat) (flags : u_char)
    (h : len ≤ cp.length) :
    mp_fast_close_print cp len flags =
      if len ≠ 12 then ⟨"", .done 0⟩
      else ⟨" key 0x" ++ fmt_x (field cp 4 8), .done 1⟩ := by
  unfold mp_fast_close_print
  by_cases hc : len ≠ 12
  · simp [hc]
  · have hl : len = 12 := by omega
    subst hl
    simp (disch := omega) [↓bind_pure_eq, ↓bind_printf, ↓bind_EXTRACT_64BITS,
      -String.reduceAppend]

theorem mp_dss_len_eq (cp : List u_char) (csum : Int) (h : 4 ≤ cp.length) :
    mp_dss_len cp csum = ⟨"", .done (dss_len (octet cp 3) csum)⟩ := by
  have r3 : rd cp 3 = ⟨"", .done (octet cp 3)⟩ := rd_eq (by omega)
  unfold mp_dss_len dss_len
  by_cases hA : octet cp 3 &&& MP_DSS_A = 0 <;>
  by_cases ha : octet cp 3 &&& MP_DSS_a = 0 <;>
  by_cases hM : octet cp 3 &&& MP_DSS_M = 0 <;>
  by_cases hm : octet cp 3 &&& MP_DSS_m = 0 <;>
  by_cases hc : csum = 0 <;>
  simp (disch := omega) [↓bind_rd, ↓bind_pure_eq, hA, ha, hM, hm, hc]

theorem bind_mp_dss_len {β : Type} (cp : List u_char) (csum : Int) (f : Nat → Run β)
    (h : 4 ≤ cp.length) :
    (mp_dss_len cp csum >>= f) = f (dss_len (octet cp 3) csum) := by
  rw [mp_dss_len_eq cp csum h, bind_pure_left]

theorem mp_dss_len_fault (cp : List u_char) (csum : Int) (h : cp.length ≤ 3) :
    mp_dss_len cp csum = ⟨"", .fault 3⟩ := by
  have r3 : rd cp 3 = ⟨"", .fault 3⟩ := rd_fault h
  unfold mp_dss_len
  simp [r3]

theorem mp_dss_print_fault (cp : List u_char) (len : Nat) (flags : u_char)
    (h : cp.length ≤ 3) : mp_dss_print cp len flags = ⟨"", .fault 3⟩ := by
  unfold mp_dss_print
  simp [mp_dss_len_fault cp 1 h]

set_option maxHeartbeats 4000000 in
theorem mp_dss_print_eq (cp : List u_char) (len : Nat) (flags : u_char)
    (h4 : 4 ≤ cp.length) (h : len ≤ cp.length) :
    mp_dss_print cp len flags =
      if (len ≠ dss_len (octet cp 3) 1 ∧ len ≠ dss_len (octet cp 3) 0) ∨
          flags.val &&& TH_SYN ≠ 0 then ⟨"", .done 0⟩
      else
        ⟨(if octet cp 3 &&& MP_DSS_F = 0 then "" else " fin") ++
          (if octet cp 3 &&& MP_DSS_A = 0 then ""
            else " ack " ++ fmt_u (field cp 4 (dss_ack_width (octet cp 3)))) ++
          (if octet cp 3 &&& MP_DSS_M = 0 then ""
            else " seq " ++
              fmt_u (field cp (4 + dss_ack_width (octet cp 3)) (dss_dsn_width (octet cp 3))) ++
              " subseq " ++
              fmt_u (field cp (4 + dss_ack_width (octet cp 3) + dss_dsn_width (octet cp 3)) 4) ++
              " len " ++
              fmt_u (field cp (4 + dss_ack_width (octet cp 3) + dss_dsn_width (octet cp 3) + 4) 2) ++
              (if len = dss_len (octet cp 3) 1 then
                " csum 0x" ++
                fmt_x (field cp
                  (4 + dss_ack_width (octet cp 3) + dss_dsn_width (octet cp 3) + 4 + 2) 2)
               else "")),
          .done 1⟩ := by
  have r3 : rd cp 3 = ⟨"", .done (octet cp 3)⟩ := rd_eq (by omega)
  have l1 := mp_dss_len_eq cp 1 h4
  have l0 := mp_dss_len_eq cp 0 h4
  unfold mp_dss_print
  by_cases hc : (len ≠ dss_len (octet cp 3) 1 ∧ len ≠ dss_len (octet cp 3) 0) ∨
      flags.val &&& TH_SYN ≠ 0
  · rw [if_pos hc]
    rcases hc with ⟨h1, h0⟩ | hs
    · simp [l1, l0, h1, h0]
    · by_cases h1 : len = dss_len (octet cp 3) 1
      · simp [l1, l0, h1, hs]
      · simp [l1, l0, h1, hs]
  · rw [if_neg hc]
    have hs : flags.val &&& TH_SYN = 0 := by
      by_contra hh
      exact hc (Or.inr hh)
    have hl : len = dss_len (octet cp 3) 1 ∨ len = dss_len (octet cp 3) 0 := by
      by_contra hh
      exact hc (Or.inl ⟨fun a => hh (Or.inl a), fun a => hh (Or.inr a)⟩)
    by_cases hA : octet cp 3 &&& MP_DSS_A = 0 <;>
    by_cases ha : octet cp 3 &&& MP_DSS_a = 0 <;>
    by_cases hM : octet cp 3 &&& MP_DSS_M = 0 <;>
    by_cases hm : octet cp 3 &&& MP_DSS_m = 0 <;>
    by_cases hF : octet cp 3 &&& MP_DSS_F = 0 <;>
    rcases hl with hl | hl <;>
    simp [dss_len, hA, ha, hM, hm] at hl <;>
    subst hl <;>
    simp (disch := omega) [↓bind_rd, ↓bind_mp_dss_len, ↓bind_printf, ↓bind_pure_eq, ↓bind_mk_done,
      ↓bind_EXTRACT_64BITS, ↓bind_EXTRACT_32BITS, ↓bind_EXTRACT_16BITS,
      dss_len, dss_ack_width, dss_dsn_width, hA, ha, hM, hm,
      hF, hs, String.append_assoc, -String.reduceAppend]

/-! ## Auxiliary facts for the claims -/

/-- A run of the shape the decoders have after their checks: 0 with nothing
written when the check `c` fails, else a run that returns 1. -/
theorem res_of_guard {c P : Prop} [Decidable c] (r : Run Int) (hr : r.res = .done 1)
    (hcp : c ↔ ¬P) :
    ((if c then (⟨"", .done 0⟩ : Run Int) else r).res = .done 1 ∨
      (if c then (⟨"", .done 0⟩ : Run Int) else r).res = .done 0) ∧
    ((if c then (⟨"", .done 0⟩ : Run Int) else r).res = .done 1 ↔ P) ∧
    ((if c then (⟨"", .done 0⟩ : Run Int) else r).res = .done 0 ↔ ¬P) := by
  by_cases hc : c
  · rw [if_pos hc]
    have hn : ¬P := hcp.1 hc
    refine ⟨Or.inr rfl, ⟨fun h => ?_, fun h => absurd h hn⟩, ⟨fun _ => hn, fun _ => rfl⟩⟩
    cases h
  · rw [if_neg hc, hr]
    have hp : P := Classical.not_not.1 (fun h => hc (hcp.2 h))
    refine ⟨Or.inl rfl, ⟨fun _ => hp, fun _ => rfl⟩, ⟨fun h => ?_, fun h => absurd hp h⟩⟩
    cases h

theorem res_of_guard_mk {c P : Prop} [Decidable c] (o : String) (hcp : c ↔ ¬P) :
    ((if c then (⟨"", .done 0⟩ : Run Int) else ⟨o, .done 1⟩).res = .done 1 ∨
      (if c then (⟨"", .done 0⟩ : Run Int) else ⟨o, .done 1⟩).res = .done 0) ∧
    ((if c then (⟨"", .done 0⟩ : Run Int) else ⟨o, .done 1⟩).res = .done 1 ↔ P) ∧
    ((if c then (⟨"", .done 0⟩ : Run Int) else ⟨o, .done 1⟩).res = .done 0 ↔ ¬P) :=
  res_of_guard ⟨o, .done 1⟩ rfl hcp

theorem capable_cond_iff (len : Nat) (flags : u_char) :
    (¬(len = 12 ∧ flags.val &&& TH_SYN ≠ 0) ∧
        ¬(len = 20 ∧ flags.val &&& (TH_SYN ||| TH_ACK) = TH_ACK)) ↔
      ¬((len = 12 ∧ flags.val &&& 0x02 ≠ 0) ∨
        (len = 20 ∧ flags.val &&& 0x10 ≠ 0 ∧ flags.val &&& 0x02 = 0)) := by
  rw [ack_only_iff flags]
  unfold TH_SYN
  tauto

theorem join_cond_iff (len : Nat) (flags : u_char) :
    (¬(len = 12 ∧ flags.val &&& TH_SYN ≠ 0) ∧
        ¬(len = 16 ∧ flags.val &&& (TH_SYN ||| TH_ACK) = (TH_SYN ||| TH_ACK)) ∧
        ¬(len = 24 ∧ flags.val &&& TH_ACK ≠ 0)) ↔
      ¬((len = 12 ∧ flags.val &&& 0x02 ≠ 0) ∨
        (len = 16 ∧ flags.val &&& 0x02 ≠ 0 ∧ flags.val &&& 0x10 ≠ 0) ∨
        (len = 24 ∧ flags.val &&& 0x10 ≠ 0)) := by
  rw [syn_ack_iff flags]
  unfold TH_SYN TH_ACK
  tauto

theorem dss_len_formula (fl c : Nat) (hc : c = 0 ∨ c = 1) :
    dss_len fl (c : Int) =
      4 + (if fl &&& 0x01 ≠ 0 then (if fl &&& 0x02 ≠ 0 then 8 else 4) else 0) +
        (if fl &&& 0x04 ≠ 0 then
          (if fl &&& 0x08 ≠ 0 then 14 else 10) + (if c = 1 then 2 else 0)
         else 0) := by
  rcases hc with hc | hc <;> subst hc <;>
  simp [dss_len, MP_DSS_A, MP_DSS_a, MP_DSS_M, MP_DSS_m]

theorem dss_len_ge (fl : Nat) (csum : Int) : 4 ≤ dss_len fl csum := by
  unfold dss_len
  omega

theorem shr4_lt (cp : List u_char) (i : Nat) : octet cp i >>> 4 < 16 := by
  have h := octet_lt cp i
  rw [Nat.shiftRight_eq_div_pow]
  omega

/-- Where the bounds hold: on a buffer of exactly `len` octets the run of
`mptcp_print` reads outside the buffer if and only if `len == 3` and the
subtype is DSS. -/
theorem mptcp_print_fault_iff (env : Env) (cp : List u_char) (len : Nat) (flags : u_char)
    (hlen : cp.length = len) :
    (∃ i, (mptcp_print env cp len flags).res = .fault i) ↔
      (len = 3 ∧ octet cp 2 >>> 4 = 2) := by
  by_cases h3 : len < 3
  · rw [mptcp_print_short env cp len flags h3]
    constructor
    · rintro ⟨i, hi⟩
      cases hi
    · rintro ⟨h, _⟩
      omega
  · have h3' : 3 ≤ len := by omega
    have hb : 3 ≤ cp.length := by omega
    have hle : len ≤ cp.length := by omega
    have hk := shr4_lt cp 2
    have hcases : octet cp 2 >>> 4 = 0 ∨ octet cp 2 >>> 4 = 1 ∨ octet cp 2 >>> 4 = 2 ∨
        octet cp 2 >>> 4 = 3 ∨ octet cp 2 >>> 4 = 4 ∨ octet cp 2 >>> 4 = 5 ∨
        octet cp 2 >>> 4 = 6 ∨ octet cp 2 >>> 4 = 7 ∨ 8 ≤ octet cp 2 >>> 4 := by omega
    rcases hcases with h | h | h | h | h | h | h | h | h
    · rw [mptcp_print_capable env cp len flags h3' hb h, after_res,
        mp_capable_print_eq cp len flags hle]
      constructor
      · rintro ⟨i, hi⟩
        split_ifs at hi
      · rintro ⟨_, h2⟩
        omega
    · rw [mptcp_print_join env cp len flags h3' hb h, after_res,
        mp_join_print_eq cp len flags hle]
      constructor
      · rintro ⟨i, hi⟩
        split_ifs at hi
      · rintro ⟨_, h2⟩
        omega
    · rw [mptcp_print_dss env cp len flags h3' hb h, after_res]
      by_cases h4 : len = 3
      · rw [mp_dss_print_fault cp len flags (by omega)]
        exact ⟨fun _ => ⟨h4, h⟩, fun _ => ⟨3, rfl⟩⟩
      · rw [mp_dss_print_eq cp len flags (by omega) hle]
        constructor
        · rintro ⟨i, hi⟩
          split_ifs at hi
        · rintro ⟨h2, _⟩
          omega
    · rw [mptcp_print_add_addr env cp len flags h3' hb h, after_res,
        add_addr_print_eq env cp len flags hb hle]
      constructor
      · rintro ⟨i, hi⟩
        split_ifs at hi
      · rintro ⟨_, h2⟩
        omega
    · rw [mptcp_print_remove_addr env cp len flags h3' hb h, after_res,
        remove_addr_print_eq cp len flags hle]
      constructor
      · rintro ⟨i, hi⟩
        split_ifs at hi
      · rintro ⟨_, h2⟩
        omega
    · rw [mptcp_print_prio env cp len flags h3' hb h, after_res,
        mp_prio_print_eq cp len flags hle]
      constructor
      · rintro ⟨i, hi⟩
        split_ifs at hi
      · rintro ⟨_, h2⟩
        omega
    · rw [mptcp_print_fail env cp len flags h3' hb h, after_res,
        mp_fail_print_eq cp len flags hle]
      constructor
      · rintro ⟨i, hi⟩
        split_ifs at hi
      · rintro ⟨_, h2⟩
        omega
    · rw [mptcp_print_fast_close env cp len flags h3' hb h, after_res,
        mp_fast_close_print_eq cp len flags hle]
      constructor
      · rintro ⟨i, hi⟩
        split_ifs at hi
      · rintro ⟨_, h2⟩
        omega
    · rw [mptcp_print_dummy env cp len flags h3' hb h]
      constructor
      · rintro ⟨i, hi⟩
        cases hi
      · rintro ⟨_, h2⟩
        omega

theorem octets_length (cp : List u_char) (off n : Nat) (h : off + n ≤ cp.length) :
    (octets cp off n).length = n := by
  simp [octets]
  omega

theorem octets_getElem_opt (cp : List u_char) (off n i : Nat) (h : off + n ≤ cp.length)
    (hi : i < n) : (octets cp off n)[i]? = some (octet cp (off + i)) := by
  have h1 : off + i < cp.length := by omega
  simp [octets, octet, List.getElem?_take, hi, List.getElem?_eq_getElem h1]

theorem field_eight (cp : List u_char) (off : Nat) (h : off + 8 ≤ cp.length) :
    field cp off 8 =
      octet cp off * 256 ^ 7 + octet cp (off + 1) * 256 ^ 6 + octet cp (off + 2) * 256 ^ 5 +
        octet cp (off + 3) * 256 ^ 4 + octet cp (off + 4) * 256 ^ 3 +
        octet cp (off + 5) * 256 ^ 2 + octet cp (off + 6) * 256 + octet cp (off + 7) := by
  unfold field
  rw [octets_succ cp off 7 (by omega), octets_succ cp (off + 1) 6 (by omega),
    octets_succ cp (off + 1 + 1) 5 (by omega), octets_succ cp (off + 1 + 1 + 1) 4 (by omega),
    octets_succ cp (off + 1 + 1 + 1 + 1) 3 (by omega),
    octets_succ cp (off + 1 + 1 + 1 + 1 + 1) 2 (by omega),
    octets_succ cp (off + 1 + 1 + 1 + 1 + 1 + 1) 1 (by omega),
    octets_succ cp (off + 1 + 1 + 1 + 1 + 1 + 1 + 1) 0 (by omega)]
  simp only [octets, List.take_zero, List.map_nil, be, List.foldl_cons, List.foldl_nil]
  ring

theorem mp_capable_print_rej (cp : List u_char) (len : Nat) (flags : u_char)
    (hbuf : len ≤ cp.length) (h : (mp_capable_print cp len flags).res = .done 0) :
    mp_capable_print cp len flags = ⟨"", .done 0⟩ := by
  rw [mp_capable_print_eq cp len flags hbuf] at h ⊢
  split_ifs at h ⊢ <;> first | rfl | cases h

theorem mp_join_print_rej (cp : List u_char) (len : Nat) (flags : u_char)
    (hbuf : len ≤ cp.length) (h : (mp_join_print cp len flags).res = .done 0) :
    mp_join_print cp len flags = ⟨"", .done 0⟩ := by
  rw [mp_join_print_eq cp len flags hbuf] at h ⊢
  split_ifs at h ⊢ <;> first | rfl | cases h

theorem mp_dss_print_rej (cp : List u_char) (len : Nat) (flags : u_char)
    (hbuf : len ≤ cp.length) (h : (mp_dss_print cp len flags).res = .done 0) :
    mp_dss_print cp len flags = ⟨"", .done 0⟩ := by
  by_cases h4 : 4 ≤ cp.length
  · rw [mp_dss_print_eq cp len flags h4 hbuf] at h ⊢
    split_ifs at h ⊢ <;> first | rfl | cases h
  · rw [mp_dss_print_fault cp len flags (by omega)] at h
    cases h

theorem add_addr_print_rej (env : Env) (cp : List u_char) (len : Nat) (flags : u_char)
    (h3 : 3 ≤ cp.length) (hbuf : len ≤ cp.length)
    (h : (add_addr_print env cp len flags).res = .done 0) :
    add_addr_print env cp len flags = ⟨"", .done 0⟩ := by
  rw [add_addr_print_eq env cp len flags h3 hbuf] at h ⊢
  split_ifs at h ⊢ <;> first | rfl | cases h

theorem remove_addr_print_rej (cp : List u_char) (len : Nat) (flags : u_char)
    (hbuf : len ≤ cp.length) (h : (remove_addr_print cp len flags).res = .done 0) :
    remove_addr_print cp len flags = ⟨"", .done 0⟩ := by
  rw [remove_addr_print_eq cp len flags hbuf] at h ⊢
  split_ifs at h ⊢ <;> first | rfl | cases h

theorem mp_prio_print_rej (cp : List u_char) (len : Nat) (flags : u_char)
    (hbuf : len ≤ cp.length) (h : (mp_prio_print cp len flags).res = .done 0) :
    mp_prio_print cp len flags = ⟨"", .done 0⟩ := by
  rw [mp_prio_print_eq cp len flags hbuf] at h ⊢
  split_ifs at h ⊢ <;> first | rfl | cases h

theorem mp_fail_print_rej (cp : List u_char) (len : Nat) (flags : u_char)
    (hbuf : len ≤ cp.length) (h : (mp_fail_print cp len flags).res = .done 0) :
    mp_fail_print cp len flags = ⟨"", .done 0⟩ := by
  rw [mp_fail_print_eq cp len flags hbuf] at h ⊢
  split_ifs at h ⊢ <;> first | rfl | cases h

theorem mp_fast_close_print_rej (cp : List u_char) (len : Nat) (flags : u_char)
    (hbuf : len ≤ cp.length) (h : (mp_fast_close_print cp len flags).res = .done 0) :
    mp_fast_close_print cp len flags = ⟨"", .done 0⟩ := by
  rw [mp_fast_close_print_eq cp len flags hbuf] at h ⊢
  split_ifs at h ⊢ <;> first | rfl | cases h

theorem rej_case (env : Env) (cp : List u_char) (len : Nat) (flags : u_char)
    (h3 : 3 ≤ len) (hb : 3 ≤ cp.length) (k : Nat) (name : String)
    (print : List u_char → Nat → u_char → Run Int)
    (hsub : min (octet cp 2 >>> 4) 8 = k)
    (hk : (mptcp_options env)[k]? = some ⟨name, print⟩)
    (hn : short_names[k]? = some name)
    (hrej : (mptcp_print env cp len flags).res = .done 0)
    (hdec : (print cp len flags).res = .done 0 → print cp len flags = ⟨"", .done 0⟩) :
    ∃ e : OptEntry, (mptcp_options env)[min (octet cp 2 >>> 4) 8]? = some e ∧
      short_names[min (octet cp 2 >>> 4) 8]? = some e.name ∧
      e.print cp len flags = ⟨"", .done 0⟩ ∧
      (mptcp_print env cp len flags).out = " " ++ e.name := by
  rw [mptcp_print_sub env cp len flags h3 hb k name print hsub hk] at hrej ⊢
  rw [after_res] at hrej
  have hd := hdec hrej
  refine ⟨⟨name, print⟩, by rw [hsub]; exact hk, by rw [hsub]; exact hn, hd, ?_⟩
  rw [hd]
  exact String.append_empty _

theorem toDigitsCore_append (b : Nat) (fuel : Nat) : ∀ (n : Nat) (ds : List Char),
    Nat.toDigitsCore b fuel n ds = Nat.toDigitsCore b fuel n [] ++ ds := by
  induction fuel with
  | zero => intro n ds; simp [Nat.toDigitsCore]
  | succ f ih =>
    intro n ds
    simp only [Nat.toDigitsCore]
    split
    · simp
    · rw [ih (n / b) (Nat.digitChar (n % b) :: ds), ih (n / b) [Nat.digitChar (n % b)]]
      simp

theorem toDigitsCore_step (b f n : Nat) :
    Nat.toDigitsCore b (f + 1) n [] =
      if n / b = 0 then [Nat.digitChar (n % b)]
      else Nat.toDigitsCore b f (n / b) [] ++ [Nat.digitChar (n % b)] := by
  simp only [Nat.toDigitsCore]
  split
  · rfl
  · rw [toDigitsCore_append]

theorem digitChar_value : ∀ d : Fin 10, (Nat.digitChar d.val).toNat - '0'.toNat = d.val := by
  decide

theorem digitChar_dec_mem : ∀ d : Fin 10, Nat.digitChar d.val ∈ "0123456789".data := by
  decide

theorem parse_dec_snoc (cs : List Char) (c : Char) :
    parse_dec (cs ++ [c]) = parse_dec cs * 10 + (c.toNat - '0'.toNat) := by
  simp [parse_dec, List.foldl_append]

theorem parse_dec_toDigitsCore (fuel : Nat) : ∀ n : Nat, n < fuel →
    parse_dec (Nat.toDigitsCore 10 fuel n []) = n := by
  induction fuel with
  | zero => intro n h; omega
  | succ f ih =>
    intro n h
    rw [toDigitsCore_step]
    have hd := digitChar_value ⟨n % 10, Nat.mod_lt n (by decide)⟩
    simp only [] at hd
    split
    · rename_i h0
      have : parse_dec [Nat.digitChar (n % 10)] = (Nat.digitChar (n % 10)).toNat - '0'.toNat := by
        simp [parse_dec]
      rw [this, hd]
      omega
    · rename_i h0
      rw [parse_dec_snoc, ih (n / 10) (by omega), hd]
      omega

/-- Reading back the decimal text of a number gives the number. -/
theorem parse_dec_fmt_u (n : Nat) : parse_dec (fmt_u n).data = n :=
  parse_dec_toDigitsCore (n + 1) n (Nat.lt_succ_self n)

theorem toDigitsCore_dec_mem (fuel : Nat) : ∀ n : Nat,
    ∀ c ∈ Nat.toDigitsCore 10 fuel n [], c ∈ "0123456789".data := by
  induction fuel with
  | zero => intro n c hc; simp [Nat.toDigitsCore] at hc
  | succ f ih =>
    intro n c hc
    rw [toDigitsCore_step] at hc
    have hd := digitChar_dec_mem ⟨n % 10, Nat.mod_lt n (by decide)⟩
    simp only [] at hd
    split at hc
    · rw [List.mem_singleton] at hc
      rw [hc]
      exact hd
    · rw [List.mem_append, List.mem_singleton] at hc
      rcases hc with hc | hc
      · exact ih (n / 10) c hc
      · rw [hc]
        exact hd

/-- The decimal text of a number holds decimal digits only. -/
theorem fmt_u_dec_mem (n : Nat) : ∀ c ∈ (fmt_u n).data, c ∈ "0123456789".data :=
  toDigitsCore_dec_mem (n + 1) n

theorem octets_eight (cp : List u_char) (off : Nat) (h : off + 8 ≤ cp.length) :
    octets cp off 8 =
      [octet cp off, octet cp (off + 1), octet cp (off + 2), octet cp (off + 3),
        octet cp (off + 4), octet cp (off + 5), octet cp (off + 6), octet cp (off + 7)] := by
  rw [octets_succ cp off 7 (by omega), octets_succ cp (off + 1) 6 (by omega),
    octets_succ cp (off + 1 + 1) 5 (by omega), octets_succ cp (off + 1 + 1 + 1) 4 (by omega),
    octets_succ cp (off + 1 + 1 + 1 + 1) 3 (by omega),
    octets_succ cp (off + 1 + 1 + 1 + 1 + 1) 2 (by omega),
    octets_succ cp (off + 1 + 1 + 1 + 1 + 1 + 1) 1 (by omega),
    octets_succ cp (off + 1 + 1 + 1 + 1 + 1 + 1 + 1) 0 (by omega)]
  simp [octets]

theorem be_octets_field (cp : List u_char) (off : Nat) (h : off + 8 ≤ cp.length) :
    be_octets 8 (field cp off 8) = octets cp off 8 := by
  rw [field_eight cp off h, octets_eight cp off h]
  have h0 := octet_lt cp off
  have h1 := octet_lt cp (off + 1)
  have h2 := octet_lt cp (off + 2)
  have h3 := octet_lt cp (off + 3)
  have h4 := octet_lt cp (off + 4)
  have h5 := octet_lt cp (off + 5)
  have h6 := octet_lt cp (off + 6)
  have h7 := octet_lt cp (off + 7)
  simp only [be_octets]
  norm_num
  refine ⟨?_, ?_, ?_, ?_, ?_, ?_, ?_, ?_⟩ <;> omega

theorem mp_fail_run (env : Env) (cp : List u_char) (flags : u_char)
    (hbuf : 12 ≤ cp.length) (hsub : octet cp 2 >>> 4 = 6) :
    mptcp_print env cp 12 flags = ⟨" fail seq " ++ fmt_u (field cp 4 8), .done 1⟩ := by
  rw [mptcp_print_fail env cp 12 flags (by omega) (by omega) hsub,
    mp_fail_print_eq cp 12 flags hbuf, if_neg (by omega)]
  have hs : " fail seq " = " fail" ++ " seq " := by decide
  rw [hs]
  simp [String.append_assoc, -String.reduceAppend]

theorem drop_fail_seq (tok : String) : (" fail seq " ++ tok).data.drop 10 = tok.data := by
  rw [String.data_append]
  rfl

set_option maxRecDepth 100000 in
theorem fmt_02x_data : ∀ b : Fin 256,
    (fmt_02x b.val).data = [Nat.digitChar (b.val / 16), Nat.digitChar (b.val % 16)] := by
  decide

theorem digitChar_hex_mem : ∀ d : Fin 16, Nat.digitChar d.val ∈ "0123456789abcdef".data := by
  decide

theorem hex02_data (bs : List Nat) (h : ∀ b ∈ bs, b < 256) :
    (hex02 bs).data =
      bs.foldr (fun b acc => Nat.digitChar (b / 16) :: Nat.digitChar (b % 16) :: acc) [] := by
  induction bs with
  | nil => rfl
  | cons b bs ih =>
    have hb : b < 256 := h b (List.mem_cons_self b bs)
    have hd := fmt_02x_data ⟨b, hb⟩
    simp only [] at hd
    rw [hex02, String.data_append, hd, ih (fun x hx => h x (List.mem_cons_of_mem b hx))]
    rfl

theorem hex_pairs_length (bs : List Nat) :
    (bs.foldr (fun b acc => Nat.digitChar (b / 16) :: Nat.digitChar (b % 16) :: acc)
      []).length = 2 * bs.length := by
  induction bs with
  | nil => rfl
  | cons b bs ih =>
    simp only [List.foldr_cons, List.length_cons, ih]
    omega

theorem hex_pairs_mem (bs : List Nat) (h : ∀ b ∈ bs, b < 256) :
    ∀ c ∈ bs.foldr (fun b acc => Nat.digitChar (b / 16) :: Nat.digitChar (b % 16) :: acc) [],
      c ∈ "0123456789abcdef".data := by
  induction bs with
  | nil => intro c hc; simp at hc
  | cons b bs ih =>
    intro c hc
    have hb : b < 256 := h b (List.mem_cons_self b bs)
    have h1 := digitChar_hex_mem ⟨b / 16, by omega⟩
    have h2 := digitChar_hex_mem ⟨b % 16, Nat.mod_lt b (by decide)⟩
    simp only [] at h1 h2
    simp only [List.foldr_cons, List.mem_cons] at hc
    rcases hc with hc | hc | hc
    · rw [hc]; exact h1
    · rw [hc]; exact h2
    · exact ih (fun x hx => h x (List.mem_cons_of_mem b hx)) c hc

theorem octets_lt (cp : List u_char) (off n : Nat) : ∀ b ∈ octets cp off n, b < 256 := by
  intro b hb
  simp only [octets, List.mem_map] at hb
  obtain ⟨x, _, hx⟩ := hb
  rw [← hx]
  exact x.isLt

set_option maxRecDepth 100000 in
theorem and_syn_of_mask : ∀ f : u_char, f.val &&& TH_SYN = (f.val &&& 0x12) &&& TH_SYN := by
  decide

set_option maxRecDepth 100000 in
theorem and_ack_of_mask : ∀ f : u_char, f.val &&& TH_ACK = (f.val &&& 0x12) &&& TH_ACK := by
  decide

set_option maxRecDepth 100000 in
theorem and_both_of_mask : ∀ f : u_char,
    f.val &&& (TH_SYN ||| TH_ACK) = (f.val &&& 0x12) &&& (TH_SYN ||| TH_ACK) := by
  decide

theorem flags_mask (f1 f2 : u_char) (h : f1.val &&& 0x12 = f2.val &&& 0x12) :
    f1.val &&& TH_SYN = f2.val &&& TH_SYN ∧ f1.val &&& TH_ACK = f2.val &&& TH_ACK ∧
    f1.val &&& (TH_SYN ||| TH_ACK) = f2.val &&& (TH_SYN ||| TH_ACK) := by
  refine ⟨?_, ?_, ?_⟩
  · rw [and_syn_of_mask f1, and_syn_of_mask f2, h]
  · rw [and_ack_of_mask f1, and_ack_of_mask f2, h]
  · rw [and_both_of_mask f1, and_both_of_mask f2, h]

theorem mp_capable_print_flags (cp : List u_char) (len : Nat) (f1 f2 : u_char)
    (h : f1.val &&& 0x12 = f2.val &&& 0x12) :
    mp_capable_print cp len f1 = mp_capable_print cp len f2 := by
  obtain ⟨hs, _, hb⟩ := flags_mask f1 f2 h
  unfold mp_capable_print
  rw [hs, hb]

theorem mp_join_print_flags (cp : List u_char) (len : Nat) (f1 f2 : u_char)
    (h : f1.val &&& 0x12 = f2.val &&& 0x12) :
    mp_join_print cp len f1 = mp_join_print cp len f2 := by
  obtain ⟨hs, ha, hb⟩ := flags_mask f1 f2 h
  unfold mp_join_print
  rw [hs, hb, ha]

theorem mp_dss_print_flags (cp : List u_char) (len : Nat) (f1 f2 : u_char)
    (h : f1.val &&& 0x12 = f2.val &&& 0x12) :
    mp_dss_print cp len f1 = mp_dss_print cp len f2 := by
  obtain ⟨hs, _, _⟩ := flags_mask f1 f2 h
  unfold mp_dss_print
  rw [hs]

theorem table_flags (env : Env) (cp : List u_char) (len : Nat) (f1 f2 : u_char)
    (h : f1.val &&& 0x12 = f2.val &&& 0x12) :
    ∀ e ∈ mptcp_options env, e.print cp len f1 = e.print cp len f2 := by
  intro e he
  simp only [mptcp_options, List.mem_cons, List.mem_singleton, List.not_mem_nil,
    or_false] at he
  rcases he with he | he | he | he | he | he | he | he | he <;> subst he
  · exact mp_capable_print_flags cp len f1 f2 h
  · exact mp_join_print_flags cp len f1 f2 h
  · exact mp_dss_print_flags cp len f1 f2 h
  · rfl
  · rfl
  · rfl
  · rfl
  · rfl
  · rfl

theorem mptcp_print_hdr_fault (env : Env) (cp : List u_char) (len : Nat) (flags : u_char)
    (h3 : 3 ≤ len) (hb : cp.length ≤ 2) :
    mptcp_print env cp len flags = ⟨"", .fault 2⟩ := by
  unfold mptcp_print
  rw [if_neg (by omega)]
  simp [rd_fault hb]

theorem u_not_mem_fmt_u (n : Nat) : 'u' ∉ (fmt_u n).data := by
  intro h
  have hd := fmt_u_dec_mem n 'u' h
  revert hd
  decide

theorem u_not_mem_append (s t : String) (hs : 'u' ∉ s.data) (ht : 'u' ∉ t.data) :
    'u' ∉ (s ++ t).data := by
  rw [String.data_append, List.mem_append]
  exact fun h => h.elim hs ht

theorem no_csum_of_no_u (s : String) (h : 'u' ∉ s.data) :
    ∀ pre post : String, s ≠ pre ++ " csum" ++ post := by
  intro pre post he
  apply h
  rw [he, String.data_append, String.data_append]
  have hu : 'u' ∈ " csum".data := by decide
  simp [hu]

theorem dss_len_no_M (fl : Nat) (h : fl &&& 0x04 = 0) (csum : Int) :
    dss_len fl csum =
      4 + (if fl &&& 0x01 ≠ 0 then (if fl &&& 0x02 ≠ 0 then 8 else 4) else 0) := by
  have h' : fl &&& MP_DSS_M = 0 := h
  simp [dss_len, MP_DSS_A, MP_DSS_a, h', -Nat.and_one_is_mod]

theorem dss_len_M (fl : Nat) (h : fl &&& 0x04 ≠ 0) : dss_len fl 1 = dss_len fl 0 + 2 := by
  have h' : ¬fl &&& MP_DSS_M = 0 := h
  simp [dss_len, h']
  omega

theorem digitChar_ne_zero : ∀ d : Fin 10, 0 < d.val → Nat.digitChar d.val ≠ '0' := by
  decide

theorem toDigitsCore_head (fuel : Nat) : ∀ n : Nat, n < fuel → 0 < n →
    ∃ (d : Nat) (rest : List Char),
      Nat.toDigitsCore 10 fuel n [] = Nat.digitChar d :: rest ∧ 0 < d ∧ d < 10 := by
  induction fuel with
  | zero => intro n h; omega
  | succ f ih =>
    intro n h hn
    rw [toDigitsCore_step]
    split
    · exact ⟨n % 10, [], rfl, by omega, Nat.mod_lt n (by decide)⟩
    · obtain ⟨d, rest, he, hd0, hd10⟩ := ih (n / 10) (by omega) (by omega)
      exact ⟨d, rest ++ [Nat.digitChar (n % 10)], by rw [he]; rfl, hd0, hd10⟩

/-- The decimal text of a number other than 0 does not start with the digit 0. -/
theorem fmt_u_head (n : Nat) (hn : n ≠ 0) : (fmt_u n).data.head? ≠ some '0' := by
  obtain ⟨d, rest, he, hd0, hd10⟩ := toDigitsCore_head (n + 1) n (Nat.lt_succ_self n) (by omega)
  have hd := digitChar_ne_zero ⟨d, hd10⟩ hd0
  simp only [] at hd
  show (Nat.toDigitsCore 10 (n + 1) n []).head? ≠ some '0'
  rw [he]
  intro h
  apply hd
  simpa using h

/-- The decimal text of a number has at least one digit. -/
theorem fmt_u_ne_nil (n : Nat) : (fmt_u n).data ≠ [] := by
  show Nat.toDigitsCore 10 (n + 1) n [] ≠ []
  rw [toDigitsCore_step]
  split
  · exact List.cons_ne_nil _ _
  · intro h
    have := congrArg List.length h
    simp at this

/-! ## The claims of the specification -/

/-- C1 fails on the code: on the DSS option `1E 03 20`, a buffer of exactly
three octets with `len == 3`, `mp_dss_print` calls `mp_dss_len` before any
check of the length, and `mp_dss_len` reads `m->flags`, the octet at index 3,
outside the buffer; this holds for every flag octet. -/
theorem mp_dss_reads_past_length (env : Env) (flags : u_char) :
    dss_short_buf.length = 3 ∧
    mptcp_print env dss_short_buf 3 flags = ⟨" dss", .fault 3⟩ :=
  ⟨rfl, rfl⟩

/-- C2 (dispatcher contract): with `len < 3` the dispatcher returns 0 and
writes nothing; with `len >= 3` (and the three header octets in the buffer)
the entry `e` of the table at index `min (cp[2] >> 4) 8` has the short name
listed at that index, the output is one space, that name, then what the
decoder of `e` writes on the same `(cp, len, flags)`, and the return value is
the return value of that decoder. -/
theorem mptcp_print_dispatch (env : Env) (cp : List u_char) (len : Nat) (flags : u_char)
    (hbuf : 3 ≤ len → 3 ≤ cp.length) :
    (len < 3 → mptcp_print env cp len flags = ⟨"", .done 0⟩) ∧
    (3 ≤ len → ∃ e : OptEntry,
      (mptcp_options env)[min (octet cp 2 >>> 4) 8]? = some e ∧
      ["capable", "join", "dss", "add-addr", "rem-addr", "prio", "fail", "fast-close",
        "unknown"][min (octet cp 2 >>> 4) 8]? = some e.name ∧
      (mptcp_print env cp len flags).out = " " ++ e.name ++ (e.print cp len flags).out ∧
      (mptcp_print env cp len flags).res = (e.print cp len flags).res) := by
  refine ⟨mptcp_print_short env cp len flags, fun h3 => ?_⟩
  have hlt : min (octet cp 2 >>> 4) 8 < (mptcp_options env).length :=
    Nat.lt_succ_of_le (Nat.min_le_right _ 8)
  have he := List.getElem?_eq_getElem hlt
  refine ⟨_, he, ?_, ?_, ?_⟩
  · have hn : (mptcp_options env).map OptEntry.name =
        ["capable", "join", "dss", "add-addr", "rem-addr", "prio", "fail", "fast-close",
          "unknown"] := rfl
    rw [← hn, List.getElem?_map, he]
    rfl
  · rw [mptcp_print_eq env cp len flags h3 (hbuf h3) _ he]
  · rw [mptcp_print_eq env cp len flags h3 (hbuf h3) _ he]

/-- Witness for C2: the MP_PRIO option `1E 04 50 03`. -/
theorem mptcp_print_dispatch_witness :
    (3 ≤ 4 → 3 ≤ prio_buf.length) ∧
    ((4 < 3 → mptcp_print env4 prio_buf 4 0x10 = ⟨"", .done 0⟩) ∧
    (3 ≤ 4 → ∃ e : OptEntry,
      (mptcp_options env4)[min (octet prio_buf 2 >>> 4) 8]? = some e ∧
      ["capable", "join", "dss", "add-addr", "rem-addr", "prio", "fail", "fast-close",
        "unknown"][min (octet prio_buf 2 >>> 4) 8]? = some e.name ∧
      (mptcp_print env4 prio_buf 4 0x10).out = " " ++ e.name ++ (e.print prio_buf 4 0x10).out ∧
      (mptcp_print env4 prio_buf 4 0x10).res = (e.print prio_buf 4 0x10).res)) :=
  ⟨by decide, mptcp_print_dispatch env4 prio_buf 4 0x10 (by decide)⟩

/-- C3: for every buffer with `len >= 3` whose octet 2 has an upper nibble of 8
or more, and every flag octet, `mptcp_print` returns 1 and its whole output is
`" unknown"`. -/
theorem mptcp_print_unknown (env : Env) (cp : List u_char) (len : Nat) (flags : u_char)
    (h3 : 3 ≤ len) (hbuf : 3 ≤ cp.length) (hsub : 8 ≤ octet cp 2 >>> 4) :
    mptcp_print env cp len flags = ⟨" unknown", .done 1⟩ := by
  rw [mptcp_print_dummy env cp len flags h3 hbuf hsub]
  rfl

/-- Witness for C3: an option of subtype 9. -/
theorem mptcp_print_unknown_witness :
    3 ≤ 4 ∧ 3 ≤ [(0x1E : u_char), 0x04, 0x90, 0x03].length ∧
    8 ≤ octet [0x1E, 0x04, 0x90, 0x03] 2 >>> 4 ∧
    mptcp_print env4 [0x1E, 0x04, 0x90, 0x03] 4 0x10 = ⟨" unknown", .done 1⟩ :=
  ⟨by decide, by decide, by decide,
    mptcp_print_unknown env4 [0x1E, 0x04, 0x90, 0x03] 4 0x10 (by decide) (by decide)
      (by decide)⟩

/-- C4: for every MP_CAPABLE option (subtype 0, `len >= 3`, the buffer holding
the `len` octets) and every flag octet, the decoder returns 1 if and only if
`len == 12` with SYN set, or `len == 20` with ACK set and SYN clear; it
returns 0 otherwise; in particular SYN set with `len == 20` returns 0. -/
theorem mp_capable_accept_iff (env : Env) (cp : List u_char) (len : Nat) (flags : u_char)
    (h3 : 3 ≤ len) (hbuf : len ≤ cp.length) (hsub : octet cp 2 >>> 4 = 0) :
    ((mptcp_print env cp len flags).res = .done 1 ↔
      (len = 12 ∧ flags.val &&& 0x02 ≠ 0) ∨
      (len = 20 ∧ flags.val &&& 0x10 ≠ 0 ∧ flags.val &&& 0x02 = 0)) ∧
    ((mptcp_print env cp len flags).res = .done 0 ↔
      ¬((len = 12 ∧ flags.val &&& 0x02 ≠ 0) ∨
        (len = 20 ∧ flags.val &&& 0x10 ≠ 0 ∧ flags.val &&& 0x02 = 0))) ∧
    (len = 20 → flags.val &&& 0x02 ≠ 0 → (mptcp_print env cp len flags).res = .done 0) := by
  have he : (mptcp_options env)[min (octet cp 2 >>> 4) 8]? =
      some ⟨"capable", mp_capable_print⟩ := by
    rw [hsub]
    rfl
  rw [mptcp_print_eq env cp len flags h3 (by omega) _ he]
  simp only []
  rw [mp_capable_print_eq cp len flags hbuf]
  by_cases hc : ¬(len = 12 ∧ flags.val &&& TH_SYN ≠ 0) ∧
      ¬(len = 20 ∧ flags.val &&& (TH_SYN ||| TH_ACK) = TH_ACK)
  · rw [if_pos hc]
    have hn := (capable_cond_iff len flags).1 hc
    refine ⟨⟨fun h => ?_, fun h => absurd h hn⟩, ⟨fun _ => hn, fun _ => rfl⟩, fun _ _ => rfl⟩
    cases h
  · rw [if_neg hc]
    have hn : ¬¬((len = 12 ∧ flags.val &&& 0x02 ≠ 0) ∨
        (len = 20 ∧ flags.val &&& 0x10 ≠ 0 ∧ flags.val &&& 0x02 = 0)) :=
      fun h => hc ((capable_cond_iff len flags).2 h)
    have hp := Classical.not_not.1 hn
    have hr : (if MP_CAPABLE_OPT_VERSION (octet cp 2) = 0 then
        (⟨(if octet cp 3 &&& MP_CAPABLE_C = 0 then "" else " csum") ++ " \x7b0x" ++
          fmt_x (field cp 4 8) ++
          (if len = 20 then ",0x" ++ fmt_x (field cp 12 8) else "") ++ "\x7d", .done 1⟩ : Run Int)
      else
        ⟨" Unknown Version (" ++ fmt_u (MP_CAPABLE_OPT_VERSION (octet cp 2)) ++ ")",
          .done 1⟩).res = .done 1 := by
      split <;> rfl
    rw [hr]
    refine ⟨⟨fun _ => hp, fun _ => rfl⟩, ⟨fun h => ?_, fun h => absurd hp h⟩, fun h20 hs => ?_⟩
    · cases h
    · rcases hp with ⟨h12, _⟩ | ⟨_, _, hs0⟩
      · omega
      · exact absurd hs0 hs

/-- Witness for C4: the MP_CAPABLE SYN scenario. -/
theorem mp_capable_accept_iff_witness :
    3 ≤ 12 ∧ 12 ≤ capable_syn_buf.length ∧ octet capable_syn_buf 2 >>> 4 = 0 ∧
    (((mptcp_print env4 capable_syn_buf 12 0x02).res = .done 1 ↔
      (12 = 12 ∧ (0x02 : u_char).val &&& 0x02 ≠ 0) ∨
      (12 = 20 ∧ (0x02 : u_char).val &&& 0x10 ≠ 0 ∧ (0x02 : u_char).val &&& 0x02 = 0)) ∧
    ((mptcp_print env4 capable_syn_buf 12 0x02).res = .done 0 ↔
      ¬((12 = 12 ∧ (0x02 : u_char).val &&& 0x02 ≠ 0) ∨
        (12 = 20 ∧ (0x02 : u_char).val &&& 0x10 ≠ 0 ∧ (0x02 : u_char).val &&& 0x02 = 0))) ∧
    (12 = 20 → (0x02 : u_char).val &&& 0x02 ≠ 0 →
      (mptcp_print env4 capable_syn_buf 12 0x02).res = .done 0)) :=
  ⟨by decide, by decide, by decide,
    mp_capable_accept_iff env4 capable_syn_buf 12 0x02 (by decide) (by decide) (by decide)⟩

/-- C6 as stated fails: an MP_JOIN option of 12 octets on a segment with SYN
and ACK both set is accepted, although none of the three combinations of the
claim holds (the first asks for ACK clear). -/
theorem mp_join_len12_syn_ack_accepted :
    octet join_backup_buf 2 >>> 4 = 1 ∧
    (mptcp_print env4 join_backup_buf 12 0x12).res = .done 1 ∧
    ¬((12 = 12 ∧ (0x12 : u_char).val &&& 0x02 ≠ 0 ∧ (0x12 : u_char).val &&& 0x10 = 0) ∨
      ((12 : Nat) = 16 ∧ (0x12 : u_char).val &&& 0x02 ≠ 0 ∧ (0x12 : u_char).val &&& 0x10 ≠ 0) ∨
      ((12 : Nat) = 24 ∧ (0x12 : u_char).val &&& 0x10 ≠ 0)) := by
  decide

/-- C6, amended: for every MP_JOIN option (subtype 1, `len >= 3`, the buffer
holding the `len` octets) and every flag octet, the decoder returns 1 or 0,
and it returns 1 if and only if `len == 12` with SYN set (ACK is not
examined), or `len == 16` with SYN and ACK both set, or `len == 24` with ACK
set. -/
theorem mp_join_accept_iff (env : Env) (cp : List u_char) (len : Nat) (flags : u_char)
    (h3 : 3 ≤ len) (hbuf : len ≤ cp.length) (hsub : octet cp 2 >>> 4 = 1) :
    ((mptcp_print env cp len flags).res = .done 1 ∨
      (mptcp_print env cp len flags).res = .done 0) ∧
    ((mptcp_print env cp len flags).res = .done 1 ↔
      (len = 12 ∧ flags.val &&& 0x02 ≠ 0) ∨
      (len = 16 ∧ flags.val &&& 0x02 ≠ 0 ∧ flags.val &&& 0x10 ≠ 0) ∨
      (len = 24 ∧ flags.val &&& 0x10 ≠ 0)) := by
  rw [mptcp_print_join env cp len flags h3 (by omega) hsub, after_res,
    mp_join_print_eq cp len flags hbuf]
  have hg := res_of_guard
    (if len = 24 then (⟨" hmac 0x" ++ hex02 (octets cp 4 20), .done 1⟩ : Run Int)
      else
        ⟨(if octet cp 2 &&& MP_JOIN_B = 0 then "" else " backup") ++ " id " ++
          fmt_u (octet cp 3) ++
          (if len = 12 then
            " token 0x" ++ fmt_x (field cp 4 4) ++ " nonce 0x" ++ fmt_x (field cp 8 4)
           else " hmac 0x" ++ fmt_x (field cp 4 8) ++ " nonce 0x" ++ fmt_x (field cp 12 4)),
          .done 1⟩) (by split <;> rfl) (join_cond_iff len flags)
  exact ⟨hg.1, hg.2.1⟩

/-- Witness for C6 as amended: an MP_JOIN option of 16 octets on a
SYN/ACK segment. -/
theorem mp_join_accept_iff_witness :
    3 ≤ 16 ∧ 16 ≤ join_synack_buf.length ∧ octet join_synack_buf 2 >>> 4 = 1 ∧
    (((mptcp_print env4 join_synack_buf 16 0x12).res = .done 1 ∨
      (mptcp_print env4 join_synack_buf 16 0x12).res = .done 0) ∧
    ((mptcp_print env4 join_synack_buf 16 0x12).res = .done 1 ↔
      (16 = 12 ∧ (0x12 : u_char).val &&& 0x02 ≠ 0) ∨
      (16 = 16 ∧ (0x12 : u_char).val &&& 0x02 ≠ 0 ∧ (0x12 : u_char).val &&& 0x10 ≠ 0) ∨
      (16 = 24 ∧ (0x12 : u_char).val &&& 0x10 ≠ 0))) :=
  ⟨by decide, by decide, by decide,
    mp_join_accept_iff env4 join_synack_buf 16 0x12 (by decide) (by decide) (by decide)⟩

/-- C7 as stated fails: on the buffer `1E 0C 10 01 07 DE AD BE EF CA FE BA BE`
with length 12 and SYN the decoder returns 1, but the low bit of octet 2 is
clear, octets 4..7 are `07 DE AD BE` and octets 8..11 are `EF CA FE BA`, and
the output is not the text of the claim. -/
theorem mp_join_scenario_text_differs :
    (mptcp_print env4 join_syn_buf 12 0x02).res = .done 1 ∧
    octet join_syn_buf 2 &&& 0x01 = 0 ∧
    field join_syn_buf 4 4 = 0x07deadbe ∧ field join_syn_buf 8 4 = 0xefcafeba ∧
    (mptcp_print env4 join_syn_buf 12 0x02).out ≠
      " join backup id 1 token 0xdeadbeef nonce 0xcafebabe" := by
  decide

/-- C7, amended: decoding the buffer `1E 0C 10 01 07 DE AD BE EF CA FE BA BE`
with length 12 and SYN returns 1 and writes exactly
`" join id 1 token 0x7deadbe nonce 0xefcafeba"` (no backup, the low bit of
octet 2 being clear; id from octet 3, token from octets 4..7 and nonce from
octets 8..11, both big-endian lowercase hexadecimal without padding); the text
`" join backup id 1 token 0xdeadbeef nonce 0xcafebabe"` is what the buffer
`1E 0C 11 01 DE AD BE EF CA FE BA BE` yields. -/
theorem mp_join_scenario (env : Env) :
    mptcp_print env join_syn_buf 12 0x02 =
      ⟨" join id 1 token 0x7deadbe nonce 0xefcafeba", .done 1⟩ ∧
    mptcp_print env join_backup_buf 12 0x02 =
      ⟨" join backup id 1 token 0xdeadbeef nonce 0xcafebabe", .done 1⟩ ∧
    octet join_syn_buf 2 &&& 0x01 = 0 ∧ octet join_syn_buf 3 = 1 ∧
    field join_syn_buf 4 4 = 0x7deadbe ∧ field join_syn_buf 8 4 = 0xefcafeba :=
  ⟨rfl, rfl, by decide, by decide, by decide, by decide⟩

/-- C8 as stated fails: for the DSS flags octet `01` (A only) and `csum = 1`
the length of the claim is 10, SYN is clear, the buffer holds 10 octets, and
the decoder returns 0. -/
theorem mp_dss_spec_length_rejected :
    octet dss_ack_buf 2 >>> 4 = 2 ∧ octet dss_ack_buf 3 = 0x01 ∧
    (0x10 : u_char).val &&& 0x02 = 0 ∧ spec_dss_len 0x01 1 = 10 ∧
    10 ≤ dss_ack_buf.length ∧
    (mptcp_print env4 dss_ack_buf 10 0x10).res = .done 0 := by
  decide

/-- C8, amended: for every DSS option (subtype 2) in a buffer that holds its
flags octet and the `len` octets, the decoder returns 1 or 0, and it returns 1
if and only if SYN is clear and, for `csum` 0 or 1,
`len = 4 + (A ? (a ? 8 : 4) : 0) + (M ? (m ? 14 : 10) + (csum == 1 ? 2 : 0) : 0)`:
the two octets of the checksum count only when M is set. Every other length,
and every length with SYN set, returns 0. -/
theorem mp_dss_accept_iff (env : Env) (cp : List u_char) (len : Nat) (flags : u_char)
    (hbuf4 : 4 ≤ cp.length) (hbuf : len ≤ cp.length) (hsub : octet cp 2 >>> 4 = 2) :
    ((mptcp_print env cp len flags).res = .done 1 ∨
      (mptcp_print env cp len flags).res = .done 0) ∧
    ((mptcp_print env cp len flags).res = .done 1 ↔
      flags.val &&& 0x02 = 0 ∧ ∃ csum : Nat, (csum = 0 ∨ csum = 1) ∧
        len = 4 +
          (if octet cp 3 &&& 0x01 ≠ 0 then (if octet cp 3 &&& 0x02 ≠ 0 then 8 else 4) else 0) +
          (if octet cp 3 &&& 0x04 ≠ 0 then
            (if octet cp 3 &&& 0x08 ≠ 0 then 14 else 10) + (if csum = 1 then 2 else 0)
           else 0)) := by
  have hP : (flags.val &&& 0x02 = 0 ∧ ∃ csum : Nat, (csum = 0 ∨ csum = 1) ∧
        len = 4 +
          (if octet cp 3 &&& 0x01 ≠ 0 then (if octet cp 3 &&& 0x02 ≠ 0 then 8 else 4) else 0) +
          (if octet cp 3 &&& 0x04 ≠ 0 then
            (if octet cp 3 &&& 0x08 ≠ 0 then 14 else 10) + (if csum = 1 then 2 else 0)
           else 0)) ↔
      (flags.val &&& TH_SYN = 0 ∧
        (len = dss_len (octet cp 3) 1 ∨ len = dss_len (octet cp 3) 0)) := by
    constructor
    · rintro ⟨hs, c, hc, hl⟩
      rw [← dss_len_formula (octet cp 3) c hc] at hl
      refine ⟨hs, ?_⟩
      rcases hc with hc | hc <;> subst hc
      · exact Or.inr hl
      · exact Or.inl hl
    · rintro ⟨hs, hl⟩
      refine ⟨hs, ?_⟩
      rcases hl with hl | hl
      · exact ⟨1, Or.inr rfl, by rw [← dss_len_formula (octet cp 3) 1 (Or.inr rfl)]; exact hl⟩
      · exact ⟨0, Or.inl rfl, by rw [← dss_len_formula (octet cp 3) 0 (Or.inl rfl)]; exact hl⟩
  rw [hP]
  by_cases h3 : 3 ≤ len
  · rw [mptcp_print_dss env cp len flags h3 (by omega) hsub, after_res,
      mp_dss_print_eq cp len flags hbuf4 hbuf]
    have hcp : ((len ≠ dss_len (octet cp 3) 1 ∧ len ≠ dss_len (octet cp 3) 0) ∨
        flags.val &&& TH_SYN ≠ 0) ↔
        ¬(flags.val &&& TH_SYN = 0 ∧
          (len = dss_len (octet cp 3) 1 ∨ len = dss_len (octet cp 3) 0)) := by
      tauto
    exact ⟨(res_of_guard_mk _ hcp).1, (res_of_guard_mk _ hcp).2.1⟩
  · rw [mptcp_print_short env cp len flags (by omega)]
    have h1 := dss_len_ge (octet cp 3) 1
    have h0 := dss_len_ge (octet cp 3) 0
    refine ⟨Or.inr rfl, ⟨fun h => ?_, fun h => ?_⟩⟩
    · cases h
    · rcases h.2 with hl | hl <;> omega

/-- Witness for C8 as amended: the DSS scenario of 28 octets. -/
theorem mp_dss_accept_iff_witness :
    4 ≤ dss_full_buf.length ∧ 28 ≤ dss_full_buf.length ∧ octet dss_full_buf 2 >>> 4 = 2 ∧
    (((mptcp_print env4 dss_full_buf 28 0x10).res = .done 1 ∨
      (mptcp_print env4 dss_full_buf 28 0x10).res = .done 0) ∧
    ((mptcp_print env4 dss_full_buf 28 0x10).res = .done 1 ↔
      (0x10 : u_char).val &&& 0x02 = 0 ∧ ∃ csum : Nat, (csum = 0 ∨ csum = 1) ∧
        28 = 4 +
          (if octet dss_full_buf 3 &&& 0x01 ≠ 0 then
            (if octet dss_full_buf 3 &&& 0x02 ≠ 0 then 8 else 4) else 0) +
          (if octet dss_full_buf 3 &&& 0x04 ≠ 0 then
            (if octet dss_full_buf 3 &&& 0x08 ≠ 0 then 14 else 10) + (if csum = 1 then 2 else 0)
           else 0))) :=
  ⟨by decide, by decide, by decide,
    mp_dss_accept_iff env4 dss_full_buf 28 0x10 (by decide) (by decide) (by decide)⟩

/-- C10: for every ADD_ADDR option (subtype 3, `len >= 3`, the buffer holding
the `len` octets) and every flag octet, the decoder returns 1 or 0, and it
returns 1 iff `len` is 8 or 10 and the low nibble of octet 2 is 4, or `len` is
20 or 22 and that nibble is 6; when it returns 1 for IPv4 the output is
`" add-addr id "`, octet 3 in decimal, a space, the text `ipaddr_string` gives
for octets 4..7, and `":"` with the big-endian octets 8..9 in decimal exactly
when `len == 10`; ipver 4 with `len == 20` returns 0; with the dotted-quad
formatter the scenario (address id 5, 192.0.2.1, port 8080, length 10) yields
`" add-addr id 5 192.0.2.1:8080"`. -/
theorem add_addr_contract (env : Env) (cp : List u_char) (len : Nat) (flags : u_char)
    (h3 : 3 ≤ len) (hbuf : len ≤ cp.length) (hsub : octet cp 2 >>> 4 = 3) :
    ((mptcp_print env cp len flags).res = .done 1 ∨
      (mptcp_print env cp len flags).res = .done 0) ∧
    ((mptcp_print env cp len flags).res = .done 1 ↔
      ((len = 8 ∨ len = 10) ∧ octet cp 2 &&& 0xF = 4) ∨
      ((len = 20 ∨ len = 22) ∧ octet cp 2 &&& 0xF = 6)) ∧
    ((mptcp_print env cp len flags).res = .done 1 → octet cp 2 &&& 0xF = 4 →
      (mptcp_print env cp len flags).out =
        " add-addr id " ++ fmt_u (octet cp 3) ++ " " ++ env.ipaddr_string (octets cp 4 4) ++
          (if len = 10 then ":" ++ fmt_u (field cp 8 2) else "")) ∧
    (octet cp 2 &&& 0xF = 4 → len = 20 → (mptcp_print env cp len flags).res = .done 0) ∧
    mptcp_print { env with ipaddr_string := ipv4_to_text } add_addr_buf 10 flags =
      ⟨" add-addr id 5 192.0.2.1:8080", .done 1⟩ := by
  have hv : MP_ADD_ADDR_IPVER (octet cp 2) = octet cp 2 &&& 0xF := by
    simp [MP_ADD_ADDR_IPVER]
  have hcp : (¬((len = 8 ∨ len = 10) ∧ MP_ADD_ADDR_IPVER (octet cp 2) = 4) ∧
      ¬((len = 20 ∨ len = 22) ∧ MP_ADD_ADDR_IPVER (octet cp 2) = 6)) ↔
      ¬(((len = 8 ∨ len = 10) ∧ octet cp 2 &&& 0xF = 4) ∨
        ((len = 20 ∨ len = 22) ∧ octet cp 2 &&& 0xF = 6)) := by
    rw [hv]
    tauto
  have hE := mptcp_print_add_addr env cp len flags h3 (by omega) hsub
  have hD := add_addr_print_eq env cp len flags (by omega) hbuf
  have hg := res_of_guard
    (if MP_ADD_ADDR_IPVER (octet cp 2) = 4 then
        (⟨" id " ++ fmt_u (octet cp 3) ++ " " ++ env.ipaddr_string (octets cp 4 4) ++
          (if len = 10 then ":" ++ fmt_u (field cp 8 2) else ""), .done 1⟩ : Run Int)
      else
        ⟨" id " ++ fmt_u (octet cp 3) ++
          (if env.INET6 = true then " " ++ env.ip6addr_string (octets cp 4 16) else "") ++
          (if len = 22 then ":" ++ fmt_u (field cp 20 2) else ""), .done 1⟩)
    (by split <;> rfl) hcp
  rw [← hD] at hg
  rw [hE, after_res]
  refine ⟨hg.1, hg.2.1, fun hacc h4 => ?_, fun h4 h20 => ?_, rfl⟩
  · have hP := hg.2.1.1 hacc
    have hc := fun h => (hcp.1 h) hP
    have h4' : MP_ADD_ADDR_IPVER (octet cp 2) = 4 := by rw [hv]; exact h4
    have hs : " add-addr id " = " add-addr" ++ " id " := by decide
    rw [hD, if_neg hc, if_pos h4', hs]
    simp [String.append_assoc, -String.reduceAppend]
  · refine hg.2.2.2 (fun hP => ?_)
    rcases hP with ⟨hl, _⟩ | ⟨_, h6⟩
    · omega
    · omega

/-- Witness for C10: the ADD_ADDR scenario. -/
theorem add_addr_contract_witness :
    3 ≤ 10 ∧ 10 ≤ add_addr_buf.length ∧ octet add_addr_buf 2 >>> 4 = 3 ∧
    (((mptcp_print env4 add_addr_buf 10 0x10).res = .done 1 ∨
      (mptcp_print env4 add_addr_buf 10 0x10).res = .done 0) ∧
    ((mptcp_print env4 add_addr_buf 10 0x10).res = .done 1 ↔
      ((10 = 8 ∨ 10 = 10) ∧ octet add_addr_buf 2 &&& 0xF = 4) ∨
      ((10 = 20 ∨ 10 = 22) ∧ octet add_addr_buf 2 &&& 0xF = 6)) ∧
    ((mptcp_print env4 add_addr_buf 10 0x10).res = .done 1 →
      octet add_addr_buf 2 &&& 0xF = 4 →
      (mptcp_print env4 add_addr_buf 10 0x10).out =
        " add-addr id " ++ fmt_u (octet add_addr_buf 3) ++ " " ++
          env4.ipaddr_string (octets add_addr_buf 4 4) ++
          (if 10 = 10 then ":" ++ fmt_u (field add_addr_buf 8 2) else "")) ∧
    (octet add_addr_buf 2 &&& 0xF = 4 → 10 = 20 →
      (mptcp_print env4 add_addr_buf 10 0x10).res = .done 0) ∧
    mptcp_print { env4 with ipaddr_string := ipv4_to_text } add_addr_buf 10 0x10 =
      ⟨" add-addr id 5 192.0.2.1:8080", .done 1⟩) :=
  ⟨by decide, by decide, by decide,
    add_addr_contract env4 add_addr_buf 10 0x10 (by decide) (by decide) (by decide)⟩

/-- C11: for every REMOVE_ADDR option (subtype 4, the buffer holding the `len`
octets) the decoder returns 0 when `len < 4`; otherwise the run ends,
returns 1, and the output is `" rem-addr id"` followed by exactly `len - 3`
tokens, the `i`-th being a space and the decimal value of octet `3 + i`, in
buffer order; `1E 06 40 07 08 09` with length 6 yields
`" rem-addr id 7 8 9"`. -/
theorem remove_addr_contract (env : Env) (cp : List u_char) (len : Nat) (flags : u_char)
    (hbuf : len ≤ cp.length) (hsub : octet cp 2 >>> 4 = 4) :
    (len < 4 → (mptcp_print env cp len flags).res = .done 0) ∧
    (4 ≤ len →
      mptcp_print env cp len flags =
        ⟨" rem-addr id" ++ dec_list (octets cp 3 (len - 3)), .done 1⟩ ∧
      (octets cp 3 (len - 3)).length = len - 3 ∧
      ∀ i, i < len - 3 → (octets cp 3 (len - 3))[i]? = some (octet cp (3 + i))) ∧
    mptcp_print env rem_addr_buf 6 flags = ⟨" rem-addr id 7 8 9", .done 1⟩ := by
  refine ⟨fun h4 => ?_, fun h4 => ⟨?_, ?_, ?_⟩, rfl⟩
  · by_cases h3 : len < 3
    · rw [mptcp_print_short env cp len flags h3]
    · rw [mptcp_print_remove_addr env cp len flags (by omega) (by omega) hsub, after_res,
        remove_addr_print_eq cp len flags hbuf, if_pos h4]
  · rw [mptcp_print_remove_addr env cp len flags (by omega) (by omega) hsub,
      remove_addr_print_eq cp len flags hbuf, if_neg (by omega)]
    have hs : " rem-addr id" = " rem-addr" ++ " id" := by decide
    rw [hs]
    simp [String.append_assoc, -String.reduceAppend]
  · exact octets_length cp 3 (len - 3) (by omega)
  · intro i hi
    exact octets_getElem_opt cp 3 (len - 3) i (by omega) hi

/-- Witness for C11: the REMOVE_ADDR scenario. -/
theorem remove_addr_contract_witness :
    6 ≤ rem_addr_buf.length ∧ octet rem_addr_buf 2 >>> 4 = 4 ∧
    ((6 < 4 → (mptcp_print env4 rem_addr_buf 6 0x10).res = .done 0) ∧
    (4 ≤ 6 →
      mptcp_print env4 rem_addr_buf 6 0x10 =
        ⟨" rem-addr id" ++ dec_list (octets rem_addr_buf 3 (6 - 3)), .done 1⟩ ∧
      (octets rem_addr_buf 3 (6 - 3)).length = 6 - 3 ∧
      ∀ i, i < 6 - 3 → (octets rem_addr_buf 3 (6 - 3))[i]? = some (octet rem_addr_buf (3 + i))) ∧
    mptcp_print env4 rem_addr_buf 6 0x10 = ⟨" rem-addr id 7 8 9", .done 1⟩) :=
  ⟨by decide, by decide, remove_addr_contract env4 rem_addr_buf 6 0x10 (by decide) (by decide)⟩

/-- C12: for every MP_PRIO option (subtype 5, `len >= 3`, the buffer holding
the `len` octets) and every flag octet, the decoder returns 1 or 0, and it
returns 1 iff `len` is 3 or 4; when it returns 1 the output is `" prio"`, then
`" backup"` if the low bit of octet 2 is set and `" non-backup"` otherwise,
then `" id "` and octet 3 in decimal exactly when `len == 4`; `1E 04 50 03`
yields `" prio non-backup id 3"`. -/
theorem mp_prio_contract (env : Env) (cp : List u_char) (len : Nat) (flags : u_char)
    (h3 : 3 ≤ len) (hbuf : len ≤ cp.length) (hsub : octet cp 2 >>> 4 = 5) :
    ((mptcp_print env cp len flags).res = .done 1 ∨
      (mptcp_print env cp len flags).res = .done 0) ∧
    ((mptcp_print env cp len flags).res = .done 1 ↔ len = 3 ∨ len = 4) ∧
    ((mptcp_print env cp len flags).res = .done 1 →
      (mptcp_print env cp len flags).out =
        " prio" ++ (if octet cp 2 &&& 0x01 ≠ 0 then " backup" else " non-backup") ++
          (if len = 4 then " id " ++ fmt_u (octet cp 3) else "")) ∧
    mptcp_print env prio_buf 4 flags = ⟨" prio non-backup id 3", .done 1⟩ := by
  have hE := mptcp_print_prio env cp len flags h3 (by omega) hsub
  have hD := mp_prio_print_eq cp len flags hbuf
  have hcp : (len ≠ 3 ∧ len ≠ 4) ↔ ¬(len = 3 ∨ len = 4) := by omega
  have hg := res_of_guard_mk (c := len ≠ 3 ∧ len ≠ 4) (P := len = 3 ∨ len = 4)
    ((if octet cp 2 &&& MP_PRIO_B = 0 then " non-backup" else " backup") ++
      (if len = 4 then " id " ++ fmt_u (octet cp 3) else "")) hcp
  rw [← hD] at hg
  rw [hE, after_res]
  refine ⟨hg.1, hg.2.1, fun hacc => ?_, rfl⟩
  have hP := hg.2.1.1 hacc
  rw [hD, if_neg (fun h => (hcp.1 h) hP)]
  by_cases hb : octet cp 2 &&& MP_PRIO_B = 0
  · have hb' : octet cp 2 &&& 1 = 0 := hb
    simp [hb, hb', String.append_assoc, -String.reduceAppend, -Nat.and_one_is_mod]
  · have hb' : ¬octet cp 2 &&& 1 = 0 := hb
    simp [hb, hb', String.append_assoc, -String.reduceAppend, -Nat.and_one_is_mod]

/-- Witness for C12: the MP_PRIO scenario. -/
theorem mp_prio_contract_witness :
    3 ≤ 4 ∧ 4 ≤ prio_buf.length ∧ octet prio_buf 2 >>> 4 = 5 ∧
    (((mptcp_print env4 prio_buf 4 0x10).res = .done 1 ∨
      (mptcp_print env4 prio_buf 4 0x10).res = .done 0) ∧
    ((mptcp_print env4 prio_buf 4 0x10).res = .done 1 ↔ 4 = 3 ∨ 4 = 4) ∧
    ((mptcp_print env4 prio_buf 4 0x10).res = .done 1 →
      (mptcp_print env4 prio_buf 4 0x10).out =
        " prio" ++ (if octet prio_buf 2 &&& 0x01 ≠ 0 then " backup" else " non-backup") ++
          (if 4 = 4 then " id " ++ fmt_u (octet prio_buf 3) else "")) ∧
    mptcp_print env4 prio_buf 4 0x10 = ⟨" prio non-backup id 3", .done 1⟩) :=
  ⟨by decide, by decide, by decide,
    mp_prio_contract env4 prio_buf 4 0x10 (by decide) (by decide) (by decide)⟩

/-- C13: whenever `mptcp_print` returns 0 (on a buffer that holds the `len`
octets), no body token has been written: for `len < 3` the output is empty,
and for `len >= 3` the decoder of the table entry at `min (cp[2] >> 4) 8`
has returned 0 with nothing written, so the output is exactly one space and
the short name of that entry; this holds for every subtype, length and flag
octet, `add_addr_print` included (its late `default: return 0`, which follows
a write, does not occur). -/
theorem rejection_writes_name_only (env : Env) (cp : List u_char) (len : Nat)
    (flags : u_char) (hbuf : len ≤ cp.length)
    (hrej : (mptcp_print env cp len flags).res = .done 0) :
    (len < 3 → (mptcp_print env cp len flags).out = "") ∧
    (3 ≤ len → ∃ e : OptEntry,
      (mptcp_options env)[min (octet cp 2 >>> 4) 8]? = some e ∧
      short_names[min (octet cp 2 >>> 4) 8]? = some e.name ∧
      e.print cp len flags = ⟨"", .done 0⟩ ∧
      (mptcp_print env cp len flags).out = " " ++ e.name) := by
  refine ⟨fun h => ?_, fun h3 => ?_⟩
  · rw [mptcp_print_short env cp len flags h]
  · have hb : 3 ≤ cp.length := by omega
    have hk := shr4_lt cp 2
    have hcases : octet cp 2 >>> 4 = 0 ∨ octet cp 2 >>> 4 = 1 ∨ octet cp 2 >>> 4 = 2 ∨
        octet cp 2 >>> 4 = 3 ∨ octet cp 2 >>> 4 = 4 ∨ octet cp 2 >>> 4 = 5 ∨
        octet cp 2 >>> 4 = 6 ∨ octet cp 2 >>> 4 = 7 ∨ 8 ≤ octet cp 2 >>> 4 := by omega
    rcases hcases with h | h | h | h | h | h | h | h | h
    · exact rej_case env cp len flags h3 hb 0 "capable" mp_capable_print (by rw [h]; rfl)
        rfl rfl hrej (mp_capable_print_rej cp len flags hbuf)
    · exact rej_case env cp len flags h3 hb 1 "join" mp_join_print (by rw [h]; rfl)
        rfl rfl hrej (mp_join_print_rej cp len flags hbuf)
    · exact rej_case env cp len flags h3 hb 2 "dss" mp_dss_print (by rw [h]; rfl)
        rfl rfl hrej (mp_dss_print_rej cp len flags hbuf)
    · exact rej_case env cp len flags h3 hb 3 "add-addr" (add_addr_print env)
        (by rw [h]; rfl) rfl rfl hrej (add_addr_print_rej env cp len flags hb hbuf)
    · exact rej_case env cp len flags h3 hb 4 "rem-addr" remove_addr_print
        (by rw [h]; rfl) rfl rfl hrej (remove_addr_print_rej cp len flags hbuf)
    · exact rej_case env cp len flags h3 hb 5 "prio" mp_prio_print (by rw [h]; rfl)
        rfl rfl hrej (mp_prio_print_rej cp len flags hbuf)
    · exact rej_case env cp len flags h3 hb 6 "fail" mp_fail_print (by rw [h]; rfl)
        rfl rfl hrej (mp_fail_print_rej cp len flags hbuf)
    · exact rej_case env cp len flags h3 hb 7 "fast-close" mp_fast_close_print
        (by rw [h]; rfl) rfl rfl hrej (mp_fast_close_print_rej cp len flags hbuf)
    · exact rej_case env cp len flags h3 hb 8 "unknown" dummy_print (Nat.min_eq_right h)
        rfl rfl hrej (fun hd => by cases hd)

/-- Witness for C13: the ADD_ADDR scenario buffer offered with length 9,
which `add_addr_print` rejects. -/
theorem rejection_writes_name_only_witness :
    9 ≤ add_addr_buf.length ∧ (mptcp_print env4 add_addr_buf 9 0x10).res = .done 0 ∧
    ((9 < 3 → (mptcp_print env4 add_addr_buf 9 0x10).out = "") ∧
    (3 ≤ 9 → ∃ e : OptEntry,
      (mptcp_options env4)[min (octet add_addr_buf 2 >>> 4) 8]? = some e ∧
      short_names[min (octet add_addr_buf 2 >>> 4) 8]? = some e.name ∧
      e.print add_addr_buf 9 0x10 = ⟨"", .done 0⟩ ∧
      (mptcp_print env4 add_addr_buf 9 0x10).out = " " ++ e.name)) :=
  ⟨by decide, by decide,
    rejection_writes_name_only env4 add_addr_buf 9 0x10 (by decide) (by decide)⟩

/-- C14: for every accepted MP_JOIN option of length 24 the output is exactly
`" join hmac 0x"` followed by 40 lowercase hexadecimal digits: for each of the
octets 4..23, in buffer order, the digit of its high nibble and the digit of
its low nibble; nothing of octet 2 (low nibble) or octet 3 is written, and no
`" backup"`, `" id"` or `" nonce"` token. -/
theorem mp_join_ack_output (env : Env) (cp : List u_char) (flags : u_char)
    (hbuf : 24 ≤ cp.length) (hsub : octet cp 2 >>> 4 = 1)
    (hacc : (mptcp_print env cp 24 flags).res = .done 1) :
    (mptcp_print env cp 24 flags).out = " join hmac 0x" ++ hex02 (octets cp 4 20) ∧
    (hex02 (octets cp 4 20)).data =
      (octets cp 4 20).foldr
        (fun b acc => Nat.digitChar (b / 16) :: Nat.digitChar (b % 16) :: acc) [] ∧
    (hex02 (octets cp 4 20)).length = 40 ∧
    (∀ c ∈ (hex02 (octets cp 4 20)).data, c ∈ "0123456789abcdef".data) ∧
    (∀ i, i < 20 → (octets cp 4 20)[i]? = some (octet cp (4 + i))) ∧
    mptcp_print env join_ack_buf 24 0x10 =
      ⟨" join hmac 0x0102030405060708090a0b0c0d0e0f10111213ff", .done 1⟩ := by
  have hd := hex02_data (octets cp 4 20) (octets_lt cp 4 20)
  refine ⟨?_, hd, ?_, ?_, fun i hi => octets_getElem_opt cp 4 20 i (by omega) hi, rfl⟩
  · rw [mptcp_print_join env cp 24 flags (by omega) (by omega) hsub] at hacc ⊢
    rw [mp_join_print_eq cp 24 flags hbuf] at hacc ⊢
    by_cases hc : ¬(24 = 12 ∧ flags.val &&& TH_SYN ≠ 0) ∧
        ¬(24 = 16 ∧ flags.val &&& (TH_SYN ||| TH_ACK) = (TH_SYN ||| TH_ACK)) ∧
        ¬(24 = 24 ∧ flags.val &&& TH_ACK ≠ 0)
    · rw [if_pos hc] at hacc
      cases hacc
    · rw [if_neg hc, if_pos rfl]
      have hs : " join hmac 0x" = " join" ++ " hmac 0x" := by decide
      rw [hs]
      simp [String.append_assoc, -String.reduceAppend]
  · show (hex02 (octets cp 4 20)).data.length = 40
    rw [hd, hex_pairs_length, octets_length cp 4 20 (by omega)]
  · rw [hd]
    exact hex_pairs_mem (octets cp 4 20) (octets_lt cp 4 20)

/-- Witness for C14: an MP_JOIN option of 24 octets on an ACK segment. -/
theorem mp_join_ack_output_witness :
    24 ≤ join_ack_buf.length ∧ octet join_ack_buf 2 >>> 4 = 1 ∧
    (mptcp_print env4 join_ack_buf 24 0x10).res = .done 1 ∧
    ((mptcp_print env4 join_ack_buf 24 0x10).out =
      " join hmac 0x" ++ hex02 (octets join_ack_buf 4 20) ∧
    (hex02 (octets join_ack_buf 4 20)).data =
      (octets join_ack_buf 4 20).foldr
        (fun b acc => Nat.digitChar (b / 16) :: Nat.digitChar (b % 16) :: acc) [] ∧
    (hex02 (octets join_ack_buf 4 20)).length = 40 ∧
    (∀ c ∈ (hex02 (octets join_ack_buf 4 20)).data, c ∈ "0123456789abcdef".data) ∧
    (∀ i, i < 20 → (octets join_ack_buf 4 20)[i]? = some (octet join_ack_buf (4 + i))) ∧
    mptcp_print env4 join_ack_buf 24 0x10 =
      ⟨" join hmac 0x0102030405060708090a0b0c0d0e0f10111213ff", .done 1⟩) :=
  ⟨by decide, by decide, by decide,
    mp_join_ack_output env4 join_ack_buf 0x10 (by decide) (by decide) (by decide)⟩

/-- C15: for every MP_CAPABLE option (subtype 0, `len >= 3`, the buffer
holding the `len` octets) whose version nibble `n` (low 4 bits of octet 2) is
not 0: when the length/flag check passes the decoder returns 1 and the whole
output is `" capable Unknown Version (n)"` with `n` in decimal, whatever the
octets from 3 on hold; when the check fails the option is rejected all the
same. -/
theorem mp_capable_unknown_version (env : Env) (cp : List u_char) (len : Nat)
    (flags : u_char) (h3 : 3 ≤ len) (hbuf : len ≤ cp.length)
    (hsub : octet cp 2 >>> 4 = 0) (hver : octet cp 2 &&& 0xF ≠ 0) :
    (((len = 12 ∧ flags.val &&& 0x02 ≠ 0) ∨
        (len = 20 ∧ flags.val &&& 0x10 ≠ 0 ∧ flags.val &&& 0x02 = 0)) →
      mptcp_print env cp len flags =
        ⟨" capable Unknown Version (" ++ fmt_u (octet cp 2 &&& 0xF) ++ ")", .done 1⟩) ∧
    (¬((len = 12 ∧ flags.val &&& 0x02 ≠ 0) ∨
        (len = 20 ∧ flags.val &&& 0x10 ≠ 0 ∧ flags.val &&& 0x02 = 0)) →
      mptcp_print env cp len flags = ⟨" capable", .done 0⟩) ∧
    mptcp_print env capable_v1_buf 12 0x02 = ⟨" capable Unknown Version (1)", .done 1⟩ := by
  have hv : MP_CAPABLE_OPT_VERSION (octet cp 2) = octet cp 2 &&& 0xF := by
    simp [MP_CAPABLE_OPT_VERSION]
  have hv0 : ¬MP_CAPABLE_OPT_VERSION (octet cp 2) = 0 := by
    rw [hv]
    exact hver
  rw [mptcp_print_capable env cp len flags h3 (by omega) hsub,
    mp_capable_print_eq cp len flags hbuf]
  refine ⟨fun hP => ?_, fun hP => ?_, rfl⟩
  · have hc := fun h => ((capable_cond_iff len flags).1 h) hP
    rw [if_neg hc, if_neg hv0, hv]
    have hs : " capable Unknown Version (" = " capable" ++ " Unknown Version (" := by decide
    rw [hs]
    simp [String.append_assoc, -String.reduceAppend]
  · rw [if_pos ((capable_cond_iff len flags).2 hP)]
    rfl

/-- Witness for C15: an MP_CAPABLE option with version nibble 1 on a SYN. -/
theorem mp_capable_unknown_version_witness :
    3 ≤ 12 ∧ 12 ≤ capable_v1_buf.length ∧ octet capable_v1_buf 2 >>> 4 = 0 ∧
    octet capable_v1_buf 2 &&& 0xF ≠ 0 ∧
    ((((12 = 12 ∧ (0x02 : u_char).val &&& 0x02 ≠ 0) ∨
        (12 = 20 ∧ (0x02 : u_char).val &&& 0x10 ≠ 0 ∧ (0x02 : u_char).val &&& 0x02 = 0)) →
      mptcp_print env4 capable_v1_buf 12 0x02 =
        ⟨" capable Unknown Version (" ++ fmt_u (octet capable_v1_buf 2 &&& 0xF) ++ ")",
          .done 1⟩) ∧
    (¬((12 = 12 ∧ (0x02 : u_char).val &&& 0x02 ≠ 0) ∨
        (12 = 20 ∧ (0x02 : u_char).val &&& 0x10 ≠ 0 ∧ (0x02 : u_char).val &&& 0x02 = 0)) →
      mptcp_print env4 capable_v1_buf 12 0x02 = ⟨" capable", .done 0⟩) ∧
    mptcp_print env4 capable_v1_buf 12 0x02 = ⟨" capable Unknown Version (1)", .done 1⟩) :=
  ⟨by decide, by decide, by decide, by decide,
    mp_capable_unknown_version env4 capable_v1_buf 12 0x02 (by decide) (by decide)
      (by decide) (by decide)⟩

/-- C16: only the SYN (`0x02`) and ACK (`0x10`) bits of the flag octet enter
the decoder: for every buffer, every length and any two flag octets that agree
under the mask `0x12`, the runs of `mptcp_print` are the same, in what they
write and in how they end. -/
theorem mptcp_print_flags_mask (env : Env) (cp : List u_char) (len : Nat) (f1 f2 : u_char)
    (h : f1.val &&& 0x12 = f2.val &&& 0x12) :
    (mptcp_print env cp len f1).res = (mptcp_print env cp len f2).res ∧
    (mptcp_print env cp len f1).out = (mptcp_print env cp len f2).out := by
  have he : mptcp_print env cp len f1 = mptcp_print env cp len f2 := by
    by_cases h3 : len < 3
    · rw [mptcp_print_short env cp len f1 h3, mptcp_print_short env cp len f2 h3]
    · by_cases hb : 3 ≤ cp.length
      · have hlt : min (octet cp 2 >>> 4) 8 < (mptcp_options env).length :=
          Nat.lt_succ_of_le (Nat.min_le_right _ 8)
        have hk := List.getElem?_eq_getElem hlt
        rw [mptcp_print_eq env cp len f1 (by omega) hb _ hk,
          mptcp_print_eq env cp len f2 (by omega) hb _ hk,
          table_flags env cp len f1 f2 h _ (List.getElem_mem hlt)]
      · rw [mptcp_print_hdr_fault env cp len f1 (by omega) (by omega),
          mptcp_print_hdr_fault env cp len f2 (by omega) (by omega)]
  rw [he]
  exact ⟨rfl, rfl⟩

/-- Witness for C16: the MP_CAPABLE SYN scenario with the flag octets `02`
(SYN) and `CB` (SYN with FIN, PSH, ECE and CWR). -/
theorem mptcp_print_flags_mask_witness :
    (0x02 : u_char).val &&& 0x12 = (0xCB : u_char).val &&& 0x12 ∧
    ((mptcp_print env4 capable_syn_buf 12 0x02).res =
      (mptcp_print env4 capable_syn_buf 12 0xCB).res ∧
    (mptcp_print env4 capable_syn_buf 12 0x02).out =
      (mptcp_print env4 capable_syn_buf 12 0xCB).out) :=
  ⟨by decide, mptcp_print_flags_mask env4 capable_syn_buf 12 0x02 0xCB (by decide)⟩

/-- C17: for every MP_FAIL option (subtype 6, `len >= 3`, the buffer holding
the `len` octets) and every flag octet, the decoder returns 1 or 0, and it
returns 1 iff `len == 12`; when it returns 1 the output is exactly
`" fail seq "` and the unsigned decimal rendering of the 64-bit big-endian
integer of octets 4..11 (octet 3 does not enter): the characters after the
first ten are decimal digits, at least one, they denote that integer, and
they start with the digit 0 only when the integer is 0, where they are the
single digit 0. The data sequence octets `00 00 00 00 00 00 01 00` yield
`" fail seq 256"` and `FF FF FF FF FF FF FF FF` yield
`" fail seq 18446744073709551615"`. -/
theorem mp_fail_contract (env : Env) (cp : List u_char) (len : Nat) (flags : u_char)
    (h3 : 3 ≤ len) (hbuf : len ≤ cp.length) (hsub : octet cp 2 >>> 4 = 6) :
    ((mptcp_print env cp len flags).res = .done 1 ∨
      (mptcp_print env cp len flags).res = .done 0) ∧
    ((mptcp_print env cp len flags).res = .done 1 ↔ len = 12) ∧
    ((mptcp_print env cp len flags).res = .done 1 →
      (mptcp_print env cp len flags).out =
        " fail seq " ++
          fmt_u (octet cp 4 * 256 ^ 7 + octet cp 5 * 256 ^ 6 + octet cp 6 * 256 ^ 5 +
            octet cp 7 * 256 ^ 4 + octet cp 8 * 256 ^ 3 + octet cp 9 * 256 ^ 2 +
            octet cp 10 * 256 + octet cp 11)) ∧
    ((mptcp_print env cp len flags).res = .done 1 →
      (mptcp_print env cp len flags).out.data.take 10 = " fail seq ".data ∧
      (mptcp_print env cp len flags).out.data.drop 10 ≠ [] ∧
      (∀ c ∈ (mptcp_print env cp len flags).out.data.drop 10, c ∈ "0123456789".data) ∧
      parse_dec ((mptcp_print env cp len flags).out.data.drop 10) =
        octet cp 4 * 256 ^ 7 + octet cp 5 * 256 ^ 6 + octet cp 6 * 256 ^ 5 +
          octet cp 7 * 256 ^ 4 + octet cp 8 * 256 ^ 3 + octet cp 9 * 256 ^ 2 +
          octet cp 10 * 256 + octet cp 11 ∧
      (parse_dec ((mptcp_print env cp len flags).out.data.drop 10) ≠ 0 →
        ((mptcp_print env cp len flags).out.data.drop 10).head? ≠ some '0') ∧
      (parse_dec ((mptcp_print env cp len flags).out.data.drop 10) = 0 →
        (mptcp_print env cp len flags).out.data.drop 10 = ['0'])) ∧
    mptcp_print env fail_buf 12 flags = ⟨" fail seq 256", .done 1⟩ ∧
    mptcp_print env fail_max_buf 12 flags =
      ⟨" fail seq 18446744073709551615", .done 1⟩ := by
  have hE := mptcp_print_fail env cp len flags h3 (by omega) hsub
  have hD := mp_fail_print_eq cp len flags hbuf
  have hcp : len ≠ 12 ↔ ¬(len = 12) := Iff.rfl
  have hg := res_of_guard_mk (c := len ≠ 12) (P := len = 12)
    (" seq " ++ fmt_u (field cp 4 8)) hcp
  rw [← hD] at hg
  have hout : (mptcp_print env cp len flags).res = .done 1 →
      (mptcp_print env cp len flags).out =
        " fail seq " ++
          fmt_u (octet cp 4 * 256 ^ 7 + octet cp 5 * 256 ^ 6 + octet cp 6 * 256 ^ 5 +
            octet cp 7 * 256 ^ 4 + octet cp 8 * 256 ^ 3 + octet cp 9 * 256 ^ 2 +
            octet cp 10 * 256 + octet cp 11) := by
    intro hacc
    rw [hE, after_res] at hacc
    have hP := hg.2.1.1 hacc
    rw [hE, hD, if_neg (fun h => h hP), ← field_eight cp 4 (by omega)]
    have hs : " fail seq " = " fail" ++ " seq " := by decide
    rw [hs]
    simp [String.append_assoc, -String.reduceAppend]
  refine ⟨?_, ?_, hout, fun hacc => ?_, rfl, rfl⟩
  · rw [hE, after_res]
    exact hg.1
  · rw [hE, after_res]
    exact hg.2.1
  · rw [hout hacc, drop_fail_seq, parse_dec_fmt_u]
    refine ⟨?_, fmt_u_ne_nil _, fmt_u_dec_mem _, rfl, fun hn => fmt_u_head _ hn, fun h0 => ?_⟩
    · rw [String.data_append]
      rfl
    · rw [h0]
      rfl

/-- Witness for C17: an MP_FAIL option with data sequence number 256. -/
theorem mp_fail_contract_witness :
    3 ≤ 12 ∧ 12 ≤ fail_buf.length ∧ octet fail_buf 2 >>> 4 = 6 ∧
    (((mptcp_print env4 fail_buf 12 0x10).res = .done 1 ∨
      (mptcp_print env4 fail_buf 12 0x10).res = .done 0) ∧
    ((mptcp_print env4 fail_buf 12 0x10).res = .done 1 ↔ 12 = 12) ∧
    ((mptcp_print env4 fail_buf 12 0x10).res = .done 1 →
      (mptcp_print env4 fail_buf 12 0x10).out =
        " fail seq " ++
          fmt_u (octet fail_buf 4 * 256 ^ 7 + octet fail_buf 5 * 256 ^ 6 +
            octet fail_buf 6 * 256 ^ 5 + octet fail_buf 7 * 256 ^ 4 +
            octet fail_buf 8 * 256 ^ 3 + octet fail_buf 9 * 256 ^ 2 +
            octet fail_buf 10 * 256 + octet fail_buf 11)) ∧
    ((mptcp_print env4 fail_buf 12 0x10).res = .done 1 →
      (mptcp_print env4 fail_buf 12 0x10).out.data.take 10 = " fail seq ".data ∧
      (mptcp_print env4 fail_buf 12 0x10).out.data.drop 10 ≠ [] ∧
      (∀ c ∈ (mptcp_print env4 fail_buf 12 0x10).out.data.drop 10,
        c ∈ "0123456789".data) ∧
      parse_dec ((mptcp_print env4 fail_buf 12 0x10).out.data.drop 10) =
        octet fail_buf 4 * 256 ^ 7 + octet fail_buf 5 * 256 ^ 6 +
          octet fail_buf 6 * 256 ^ 5 + octet fail_buf 7 * 256 ^ 4 +
          octet fail_buf 8 * 256 ^ 3 + octet fail_buf 9 * 256 ^ 2 +
          octet fail_buf 10 * 256 + octet fail_buf 11 ∧
      (parse_dec ((mptcp_print env4 fail_buf 12 0x10).out.data.drop 10) ≠ 0 →
        ((mptcp_print env4 fail_buf 12 0x10).out.data.drop 10).head? ≠ some '0') ∧
      (parse_dec ((mptcp_print env4 fail_buf 12 0x10).out.data.drop 10) = 0 →
        (mptcp_print env4 fail_buf 12 0x10).out.data.drop 10 = ['0'])) ∧
    mptcp_print env4 fail_buf 12 0x10 = ⟨" fail seq 256", .done 1⟩ ∧
    mptcp_print env4 fail_max_buf 12 0x10 =
      ⟨" fail seq 18446744073709551615", .done 1⟩) :=
  ⟨by decide, by decide, by decide,
    mp_fail_contract env4 fail_buf 12 0x10 (by decide) (by decide) (by decide)⟩

/-- C19 (round trip for MP_FAIL): for every MP_FAIL option of 12 octets the
decoder returns 1; the output is `" fail seq "` and a token; reading the
characters after the first ten as a decimal number and writing that number as
8 big-endian octets gives octets 4..11 of the buffer; so two MP_FAIL options
with the same output have the same octets 4..11. -/
theorem mp_fail_round_trip (env : Env) (cp cp2 : List u_char) (flags flags2 : u_char)
    (hbuf : 12 ≤ cp.length) (hsub : octet cp 2 >>> 4 = 6)
    (hbuf2 : 12 ≤ cp2.length) (hsub2 : octet cp2 2 >>> 4 = 6) :
    (mptcp_print env cp 12 flags).res = .done 1 ∧
    (∃ tok : String, (mptcp_print env cp 12 flags).out = " fail seq " ++ tok) ∧
    be_octets 8 (parse_dec ((mptcp_print env cp 12 flags).out.data.drop 10)) =
      octets cp 4 8 ∧
    ((mptcp_print env cp 12 flags).out = (mptcp_print env cp2 12 flags2).out →
      octets cp 4 8 = octets cp2 4 8) := by
  have h1 := mp_fail_run env cp flags hbuf hsub
  have h2 := mp_fail_run env cp2 flags2 hbuf2 hsub2
  have hr : ∀ (c : List u_char), 12 ≤ c.length →
      be_octets 8 (parse_dec ((" fail seq " ++ fmt_u (field c 4 8)).data.drop 10)) =
        octets c 4 8 := by
    intro c hc
    rw [drop_fail_seq, parse_dec_fmt_u, be_octets_field c 4 (by omega)]
  rw [h1, h2]
  refine ⟨rfl, ⟨_, rfl⟩, hr cp hbuf, fun he => ?_⟩
  have he' : " fail seq " ++ fmt_u (field cp 4 8) = " fail seq " ++ fmt_u (field cp2 4 8) := he
  rw [← hr cp hbuf, ← hr cp2 hbuf2, he']

/-- Witness for C19: two MP_FAIL options of 12 octets. -/
theorem mp_fail_round_trip_witness :
    12 ≤ fail_buf.length ∧ octet fail_buf 2 >>> 4 = 6 ∧
    12 ≤ (fail_buf.set 11 0x07).length ∧ octet (fail_buf.set 11 0x07) 2 >>> 4 = 6 ∧
    ((mptcp_print env4 fail_buf 12 0x10).res = .done 1 ∧
    (∃ tok : String, (mptcp_print env4 fail_buf 12 0x10).out = " fail seq " ++ tok) ∧
    be_octets 8 (parse_dec ((mptcp_print env4 fail_buf 12 0x10).out.data.drop 10)) =
      octets fail_buf 4 8 ∧
    ((mptcp_print env4 fail_buf 12 0x10).out =
        (mptcp_print env4 (fail_buf.set 11 0x07) 12 0x02).out →
      octets fail_buf 4 8 = octets (fail_buf.set 11 0x07) 4 8)) :=
  ⟨by decide, by decide, by decide, by decide,
    mp_fail_round_trip env4 fail_buf (fail_buf.set 11 0x07) 0x10 0x02 (by decide) (by decide)
      (by decide) (by decide)⟩

/-- C20: for every DSS flags octet, `mp_dss_len(m, 1)` is `mp_dss_len(m, 0) + 2`
when the M flag (`0x04`) is set and is `mp_dss_len(m, 0)` when M is clear; so
a DSS option with M clear is accepted exactly at
`len = 4 + (A ? (a ? 8 : 4) : 0)` (with SYN clear), is rejected at that length
plus 2, and when accepted its output is `" dss"`, `" fin"` iff F, and the ack
token iff A, in which `" csum"` does not occur. -/
theorem mp_dss_checksum_needs_M (env : Env) (cp : List u_char) (len : Nat)
    (flags : u_char) (hbuf4 : 4 ≤ cp.length) (hbuf : len ≤ cp.length)
    (hsub : octet cp 2 >>> 4 = 2) :
    (∃ l0 l1 : Nat, mp_dss_len cp 0 = ⟨"", .done l0⟩ ∧ mp_dss_len cp 1 = ⟨"", .done l1⟩ ∧
      (octet cp 3 &&& 0x04 ≠ 0 → l1 = l0 + 2) ∧ (octet cp 3 &&& 0x04 = 0 → l1 = l0)) ∧
    (octet cp 3 &&& 0x04 = 0 →
      ((mptcp_print env cp len flags).res = .done 1 ↔
        flags.val &&& 0x02 = 0 ∧
        len = 4 +
          (if octet cp 3 &&& 0x01 ≠ 0 then (if octet cp 3 &&& 0x02 ≠ 0 then 8 else 4)
           else 0)) ∧
      (len = 4 +
          (if octet cp 3 &&& 0x01 ≠ 0 then (if octet cp 3 &&& 0x02 ≠ 0 then 8 else 4)
           else 0) + 2 →
        (mptcp_print env cp len flags).res = .done 0) ∧
      ((mptcp_print env cp len flags).res = .done 1 →
        (mptcp_print env cp len flags).out =
          " dss" ++ (if octet cp 3 &&& 0x10 ≠ 0 then " fin" else "") ++
            (if octet cp 3 &&& 0x01 ≠ 0 then
              " ack " ++ fmt_u (field cp 4 (if octet cp 3 &&& 0x02 ≠ 0 then 8 else 4))
             else "") ∧
        ∀ pre post : String,
          (mptcp_print env cp len flags).out ≠ pre ++ " csum" ++ post)) := by
  refine ⟨⟨dss_len (octet cp 3) 0, dss_len (octet cp 3) 1, mp_dss_len_eq cp 0 hbuf4,
    mp_dss_len_eq cp 1 hbuf4, fun hM => dss_len_M _ hM, fun hM => ?_⟩, fun hM => ?_⟩
  · rw [dss_len_no_M _ hM 1, dss_len_no_M _ hM 0]
  · have hl1 := dss_len_no_M _ hM 1
    have hl0 := dss_len_no_M _ hM 0
    have hM' : octet cp 3 &&& MP_DSS_M = 0 := hM
    have hres : ((mptcp_print env cp len flags).res = .done 1 ∨
          (mptcp_print env cp len flags).res = .done 0) ∧
        ((mptcp_print env cp len flags).res = .done 1 ↔
          flags.val &&& 0x02 = 0 ∧
          len = 4 +
            (if octet cp 3 &&& 0x01 ≠ 0 then (if octet cp 3 &&& 0x02 ≠ 0 then 8 else 4)
             else 0)) := by
      by_cases h3 : 3 ≤ len
      · rw [mptcp_print_dss env cp len flags h3 (by omega) hsub, after_res,
          mp_dss_print_eq cp len flags hbuf4 hbuf, hl1, hl0]
        have hcp : ((len ≠ 4 +
              (if octet cp 3 &&& 0x01 ≠ 0 then (if octet cp 3 &&& 0x02 ≠ 0 then 8 else 4)
               else 0) ∧
            len ≠ 4 +
              (if octet cp 3 &&& 0x01 ≠ 0 then (if octet cp 3 &&& 0x02 ≠ 0 then 8 else 4)
               else 0)) ∨ flags.val &&& TH_SYN ≠ 0) ↔
            ¬(flags.val &&& 0x02 = 0 ∧
              len = 4 +
                (if octet cp 3 &&& 0x01 ≠ 0 then (if octet cp 3 &&& 0x02 ≠ 0 then 8 else 4)
                 else 0)) := by
          unfold TH_SYN
          tauto
        exact ⟨(res_of_guard_mk _ hcp).1, (res_of_guard_mk _ hcp).2.1⟩
      · rw [mptcp_print_short env cp len flags (by omega)]
        refine ⟨Or.inr rfl, ⟨fun h => ?_, fun h => ?_⟩⟩
        · cases h
        · have := h.2
          omega
    refine ⟨hres.2, fun hlen => ?_, fun hacc => ?_⟩
    · rcases hres.1 with h1 | h0
      · have := (hres.2.1 h1).2
        omega
      · exact h0
    · have hP := hres.2.1 hacc
      have h3 : 3 ≤ len := by omega
      have hout : (mptcp_print env cp len flags).out =
          " dss" ++ (if octet cp 3 &&& 0x10 ≠ 0 then " fin" else "") ++
            (if octet cp 3 &&& 0x01 ≠ 0 then
              " ack " ++ fmt_u (field cp 4 (if octet cp 3 &&& 0x02 ≠ 0 then 8 else 4))
             else "") := by
        rw [mptcp_print_dss env cp len flags h3 (by omega) hsub,
          mp_dss_print_eq cp len flags hbuf4 hbuf, hl1, hl0]
        have hc : ¬((len ≠ 4 +
              (if octet cp 3 &&& 0x01 ≠ 0 then (if octet cp 3 &&& 0x02 ≠ 0 then 8 else 4)
               else 0) ∧
            len ≠ 4 +
              (if octet cp 3 &&& 0x01 ≠ 0 then (if octet cp 3 &&& 0x02 ≠ 0 then 8 else 4)
               else 0)) ∨ flags.val &&& TH_SYN ≠ 0) := by
          unfold TH_SYN
          intro hh
          rcases hh with ⟨hh, _⟩ | hh
          · exact hh hP.2
          · exact hh hP.1
        rw [if_neg hc]
        by_cases hF : octet cp 3 &&& MP_DSS_F = 0 <;>
        by_cases hA : octet cp 3 &&& MP_DSS_A = 0 <;>
        by_cases ha : octet cp 3 &&& MP_DSS_a = 0
        all_goals
          have hF' := hF
          have hA' := hA
          have ha' := ha
          simp only [MP_DSS_F, MP_DSS_A, MP_DSS_a] at hF' hA' ha'
          simp [hF, hA, ha, hM', hF', hA', ha', dss_ack_width, String.append_assoc,
            -String.reduceAppend, -Nat.and_one_is_mod]
      refine ⟨hout, ?_⟩
      rw [hout]
      apply no_csum_of_no_u
      apply u_not_mem_append
      · apply u_not_mem_append
        · decide
        · split
          · decide
          · decide
      · split
        · apply u_not_mem_append
          · decide
          · exact u_not_mem_fmt_u _
        · decide

/-- Witness for C20: a DSS option with F and A set and M clear. -/
theorem mp_dss_checksum_needs_M_witness :
    4 ≤ dss_fin_ack_buf.length ∧ 8 ≤ dss_fin_ack_buf.length ∧
    octet dss_fin_ack_buf 2 >>> 4 = 2 ∧
    ((∃ l0 l1 : Nat, mp_dss_len dss_fin_ack_buf 0 = ⟨"", .done l0⟩ ∧
      mp_dss_len dss_fin_ack_buf 1 = ⟨"", .done l1⟩ ∧
      (octet dss_fin_ack_buf 3 &&& 0x04 ≠ 0 → l1 = l0 + 2) ∧
      (octet dss_fin_ack_buf 3 &&& 0x04 = 0 → l1 = l0)) ∧
    (octet dss_fin_ack_buf 3 &&& 0x04 = 0 →
      ((mptcp_print env4 dss_fin_ack_buf 8 0x10).res = .done 1 ↔
        (0x10 : u_char).val &&& 0x02 = 0 ∧
        8 = 4 +
          (if octet dss_fin_ack_buf 3 &&& 0x01 ≠ 0 then
            (if octet dss_fin_ack_buf 3 &&& 0x02 ≠ 0 then 8 else 4)
           else 0)) ∧
      (8 = 4 +
          (if octet dss_fin_ack_buf 3 &&& 0x01 ≠ 0 then
            (if octet dss_fin_ack_buf 3 &&& 0x02 ≠ 0 then 8 else 4)
           else 0) + 2 →
        (mptcp_print env4 dss_fin_ack_buf 8 0x10).res = .done 0) ∧
      ((mptcp_print env4 dss_fin_ack_buf 8 0x10).res = .done 1 →
        (mptcp_print env4 dss_fin_ack_buf 8 0x10).out =
          " dss" ++ (if octet dss_fin_ack_buf 3 &&& 0x10 ≠ 0 then " fin" else "") ++
            (if octet dss_fin_ack_buf 3 &&& 0x01 ≠ 0 then
              " ack " ++
                fmt_u (field dss_fin_ack_buf 4
                  (if octet dss_fin_ack_buf 3 &&& 0x02 ≠ 0 then 8 else 4))
             else "") ∧
        ∀ pre post : String,
          (mptcp_print env4 dss_fin_ack_buf 8 0x10).out ≠ pre ++ " csum" ++ post))) :=
  ⟨by decide, by decide, by decide,
    mp_dss_checksum_needs_M env4 dss_fin_ack_buf 8 0x10 (by decide) (by decide) (by decide)⟩

end Mptcp
